import Mathlib

/-!
Verification of the multi-platform track-resolution core of the
Tracklist-Scraper repository, as a shallow embedding in Lean 4.

Embedding conventions:
  * Python strings are Lean `String`s; character-level processing works on
    `String.data : List Char`.  Python regex classes `\w` / `\s` are modelled
    at their ASCII meaning (the repository only ever feeds them ASCII-range
    OCR text): `\w ≈ [A-Za-z0-9_]`, `\s ≈ [ \t\n\r\v\f]`.
  * `float` confidences are modelled as `ℚ`: the code only ever compares and
    copies confidence literals, so exact rationals are a faithful model.
  * The HTTP boundary is modelled by an explicit outcome type: a request
    either raises a network exception or yields a status code and a body.
    `requests.Response.raise_for_status` raises exactly for `400 ≤ s < 600`.
  * Every Python `try/except Exception` block appears as an explicit branch
    on the outcome type; the Lean functions are total, which models the
    contract that `search` never propagates an exception.
  * Exception message strings (`str(e)`) are modelled by descriptive
    strings; the claims only ever inspect whether `error` is null.
-/

/-- ASCII model of the Python regex class `\w` (letters, digits, underscore). -/
def isWordChar (c : Char) : Bool :=
  c.isAlphanum || c = '_'

/-- ASCII model of the Python regex class `\s` and of `str.strip()`
whitespace: space, tab, newline, carriage return, vertical tab, form feed. -/
def isSpaceChar (c : Char) : Bool :=
  c = ' ' || c = '\t' || c = '\n' || c = '\r' || c = Char.ofNat 11 || c = Char.ofNat 12

/-- `str.lower()` on the character list (ASCII model). -/
def lowerData (s : String) : List Char :=
  s.data.map Char.toLower

/-- Scanner for `re.findall(r'\w+', s)`; `acc` is the current word-character
run, reversed. -/
def wordRunsGo (acc : List Char) : List Char → List (List Char)
  | [] => if acc.isEmpty then [] else [acc.reverse]
  | c :: cs =>
    if isWordChar c then wordRunsGo (c :: acc) cs
    else if acc.isEmpty then wordRunsGo [] cs
    else acc.reverse :: wordRunsGo [] cs

/-- `re.findall(r'\w+', s)`: the maximal runs of word characters, in order. -/
def wordRuns (s : List Char) : List (List Char) :=
  wordRunsGo [] s

/-- `set(re.findall(r'\w+', s))`, as a duplicate-free list; only membership
and cardinality of these sets are ever used by the code. -/
def wordSetOf (s : List Char) : List (List Char) :=
  (wordRuns s).dedup

/-- Scanner for `re.sub(r'\s+', ' ', s)`; `prevSpace` records whether the
previous character belonged to a whitespace run already emitted as `' '`. -/
def collapseWsGo (prevSpace : Bool) : List Char → List Char
  | [] => []
  | c :: cs =>
    if isSpaceChar c then
      if prevSpace then collapseWsGo true cs else ' ' :: collapseWsGo true cs
    else c :: collapseWsGo false cs

/-- `re.sub(r'\s+', ' ', s)`: every maximal whitespace run becomes one space. -/
def collapseWs (s : List Char) : List Char :=
  collapseWsGo false s

/-- `str.strip()`: drop leading and trailing whitespace. -/
def stripWs (s : List Char) : List Char :=
  ((s.dropWhile isSpaceChar).reverse.dropWhile isSpaceChar).reverse

/-- Python `str.startswith`. -/
def pyStartsWith (s pre : String) : Bool :=
  pre.data.isPrefixOf s.data

/-- Python `sub in s` (contiguous substring test). -/
def pyContains (s sub : String) : Bool :=
  decide (sub.data <:+: s.data)

/-- Characters that `urllib.parse.quote` never encodes: ALPHA / DIGIT and
`_.-~` (the unreserved set). -/
def isUrlUnreserved (c : Char) : Bool :=
  c.isAlphanum || c = '_' || c = '.' || c = '-' || c = '~'

/-- Uppercase hex digit of `n % 16`, as used by `urllib.parse.quote`. -/
def hexDigit (n : Nat) : Char :=
  if n < 10 then Char.ofNat (48 + n) else Char.ofNat (55 + n)

/-- UTF-8 bytes of a code point (standard 1-to-4 byte encoding). -/
def utf8Bytes (n : Nat) : List Nat :=
  if n < 128 then [n]
  else if n < 2048 then [192 + n / 64, 128 + n % 64]
  else if n < 65536 then [224 + n / 4096, 128 + (n / 64) % 64, 128 + n % 64]
  else [240 + n / 262144, 128 + (n / 4096) % 64, 128 + (n / 64) % 64, 128 + n % 64]

/-- Percent-encode one character's UTF-8 bytes (`%XX`, uppercase hex). -/
def percentEncode (c : Char) : List Char :=
  (utf8Bytes c.toNat).flatMap (fun b => ['%', hexDigit (b / 16), hexDigit (b % 16)])

/-- `urllib.parse.quote(s)` with the default `safe='/'`. -/
def urlQuote (s : String) : String :=
  String.mk (s.data.flatMap (fun c =>
    if isUrlUnreserved c || c = '/' then [c] else percentEncode c))

/-- `urllib.parse.quote_plus(s, safe='')` as used by `urlencode`: spaces
become `+`, unreserved characters pass through, the rest percent-encode. -/
def quotePlus (s : String) : String :=
  String.mk (s.data.flatMap (fun c =>
    if c = ' ' then ['+']
    else if isUrlUnreserved c then [c]
    else percentEncode c))

/-- `urllib.parse.urlencode(params)` for string-valued parameters. -/
def urlencode (ps : List (String × String)) : String :=
  String.intercalate "&" (ps.map (fun kv => quotePlus kv.1 ++ "=" ++ quotePlus kv.2))

/-- `', '.join(xs)`. -/
def joinComma (xs : List String) : String :=
  String.intercalate ", " xs

/-- Values stored in the `metadata` mapping of a result (the code stores
strings and integers there). -/
inductive MetaVal where
  | s (v : String)
  | n (v : Nat)
deriving DecidableEq

/-- The uniform result envelope every crawler's `search` returns
(`url`, `confidence`, `metadata`, `error`). -/
structure PlatformResult where
  url : Option String
  confidence : ℚ
  metadata : List (String × MetaVal)
  error : Option String
deriving DecidableEq

/-- Outcome of one HTTP GET: either the request raised (network error,
timeout, ...) or a response with a status code and a body arrived.
`β` is the body type (raw text, or parsed records for the API client). -/
inductive HttpResult (β : Type) where
  | netError (msg : String)
  | response (status : Nat) (body : β)
deriving DecidableEq

/-- `response.raise_for_status()` raises exactly for 400–599. -/
def raisesForStatus (s : Nat) : Bool :=
  400 ≤ s && s < 600

/-- Model of `str(e)` for the `requests.HTTPError` raised by
`raise_for_status` (the claims only inspect nullness of `error`). -/
def httpErrorMsg (s : Nat) : String :=
  toString s ++ " Error for url"

/-! ### Discogs crawler (src/crawlers/discogs.py) -/

/-- One record of the Discogs search response's `results` list.  Fields are
`Option`s because the code reads each with `dict.get(key, default)`. -/
structure DiscogsRecord where
  title : Option String
  uri : Option String
  year : Option String
  label : Option (List String)
  format : Option (List String)
  country : Option String
deriving DecidableEq

/-- Body of a Discogs HTTP response: `response.json()` either raises
(malformed body) or yields a document whose `results` list is read with
`data.get('results', [])`. -/
inductive DiscogsBody where
  | malformed (msg : String)
  | json (results : List DiscogsRecord)
deriving DecidableEq

/-- `DiscogsCrawler.clean_query`: strip characters outside
`[\w\s\-()\[\]&.]` (each becomes a space), collapse whitespace, strip. -/
def discogsCleanQuery (query : String) : String :=
  let kept := query.data.map (fun c =>
    if isWordChar c || isSpaceChar c ||
       c ∈ ['-', '(', ')', '[', ']', '&', '.'] then c else ' ')
  String.mk (stripWs (collapseWs kept))

/-- `result.get('title', '').lower()` of the Discogs scorer. -/
def discogsTitleLower (result : DiscogsRecord) : List Char :=
  lowerData (result.title.getD "")

/-- `DiscogsCrawler._calculate_confidence`. -/
def discogsCalcConfidence (originalQuery : String) (result : DiscogsRecord) : ℚ :=
  let title := discogsTitleLower result
  let queryLower := lowerData originalQuery
  if queryLower <:+: title ∨ title <:+: queryLower then 9/10
  else
    let queryWords := wordSetOf queryLower
    let titleWords := wordSetOf title
    if !queryWords.isEmpty && !titleWords.isEmpty then
      let overlap := (queryWords.inter titleWords).length
      let totalWords := (queryWords.union titleWords).length
      min (8/10) ((overlap : ℚ) / (totalWords : ℚ))
    else 1/2

/-- The URL-building block of `DiscogsCrawler.search`: a non-empty `uri`
from the first record is prefixed with the canonical host when it starts
with `/releases/` or `/masters/`, and likewise whenever it does not start
with `http`; an empty `uri` is left as the empty string. -/
def discogsBuildUrl (uri : String) : String :=
  if uri ≠ "" then
    if pyStartsWith uri "/releases/" then "https://www.discogs.com" ++ uri
    else if pyStartsWith uri "/masters/" then "https://www.discogs.com" ++ uri
    else if !(pyStartsWith uri "http") then "https://www.discogs.com" ++ uri
    else uri
  else uri

/-- The debug URL `f"{search_url}?{urlencode(params)}"` stored in some
Discogs metadata branches. -/
def discogsFullUrl (cleanQuery : String) : String :=
  "https://api.discogs.com/database/search?" ++
    urlencode [("q", cleanQuery), ("type", "release"), ("per_page", "10")]

/-- `DiscogsCrawler.search`, branch for branch: network exception; 401;
429; other 4xx/5xx via `raise_for_status`; malformed JSON; empty
`results`; success on the first record. -/
def discogsSearch (query : String) (http : HttpResult DiscogsBody) : PlatformResult :=
  let cleanQuery := discogsCleanQuery query
  let fullUrl := discogsFullUrl cleanQuery
  match http with
  | .netError e =>
    ⟨none, 0, [("search_query", .s query)], some e⟩
  | .response status body =>
    if status = 401 then
      ⟨none, 0, [("search_query", .s cleanQuery), ("full_url", .s fullUrl)],
        some "Unauthorized - need Discogs token"⟩
    else if status = 429 then
      ⟨none, 0, [("search_query", .s cleanQuery), ("full_url", .s fullUrl)],
        some "Rate limited - try again later"⟩
    else if raisesForStatus status then
      ⟨none, 0, [("search_query", .s query)], some (httpErrorMsg status)⟩
    else
      match body with
      | .malformed e =>
        ⟨none, 0, [("search_query", .s query)], some e⟩
      | .json results =>
        match results with
        | [] =>
          ⟨none, 0, [("search_query", .s cleanQuery)], some "No results found"⟩
        | bestMatch :: _ =>
          let confidence := discogsCalcConfidence query bestMatch
          let discogsUrl := discogsBuildUrl (bestMatch.uri.getD "")
          ⟨some discogsUrl, confidence,
            [("title", .s (bestMatch.title.getD "")),
             ("year", .s (bestMatch.year.getD "")),
             ("label", .s (joinComma (bestMatch.label.getD []))),
             ("format", .s (joinComma (bestMatch.format.getD []))),
             ("country", .s (bestMatch.country.getD "")),
             ("search_query", .s cleanQuery),
             ("total_results", .n results.length)],
            none⟩

/-! ### YouTube crawler (src/crawlers/youtube.py)

The response body is scanned with four `re.findall` patterns of decreasing
specificity.  Each pattern ends in `"videoId":"([a-zA-Z0-9_-]{11})"`; the
first two lead in with `"<name>":\s*{[^}]*`, the third with
`"watchEndpoint":\s*{\s*`.  They are modelled by dedicated matchers below:
for the greedy `[^}]*` the regex engine takes the **last** position inside
the maximal brace-free run at which the tail pattern succeeds, and
`re.findall` scans left to right, resuming after each non-overlapping
match. -/

/-- The character class `[a-zA-Z0-9_-]` of a video identifier. -/
def isIdChar (c : Char) : Bool :=
  c.isAlphanum || c = '_' || c = '-'

/-- Match the literal list `lit` at the head of `s`, returning the rest. -/
def takeLit (lit : List Char) (s : List Char) : Option (List Char) :=
  if lit.isPrefixOf s then some (s.drop lit.length) else none

/-- Match `"videoId":"([a-zA-Z0-9_-]{11})"` at the head of `s`; on success
return the captured identifier and the rest of the input. -/
def matchIdCore (s : List Char) : Option (List Char × List Char) :=
  (takeLit ("\"videoId\":\"".data) s).bind (fun s1 =>
    let vid := s1.take 11
    if vid.length = 11 && vid.all isIdChar then
      match s1.drop 11 with
      | c :: rest => if c = Char.ofNat 34 then some (vid, rest) else none
      | [] => none
    else none)

/-- Greedy `[^}]*` followed by the id core: find the **last** start position
within the maximal run of non-`}` characters at which `matchIdCore`
succeeds (all characters of the core pattern differ from `}`, so a match
never crosses the closing brace). -/
def lastIdCore (s : List Char) : Option (List Char × List Char) :=
  match s with
  | [] => none
  | c :: cs =>
    if c = Char.ofNat 125 then none
    else
      match lastIdCore cs with
      | some r => some r
      | none => matchIdCore s

/-- Match `"<lead>":\s*{[^}]*"videoId":"(...)"` at the head of `s` (the
shape of the `videoRenderer` / `compactVideoRenderer` patterns). -/
def matchRender (lead : List Char) (s : List Char) : Option (List Char × List Char) :=
  (takeLit lead s).bind (fun s1 =>
    match s1.dropWhile isSpaceChar with
    | c :: s2 => if c = Char.ofNat 123 then lastIdCore s2 else none
    | [] => none)

/-- Match `"watchEndpoint":\s*{\s*"videoId":"(...)"` at the head of `s`. -/
def matchWatchEndpoint (s : List Char) : Option (List Char × List Char) :=
  (takeLit ("\"watchEndpoint\":".data) s).bind (fun s1 =>
    match s1.dropWhile isSpaceChar with
    | c :: s2 =>
      if c = Char.ofNat 123 then matchIdCore (s2.dropWhile isSpaceChar) else none
    | [] => none)

/-- `re.findall` for a matcher: scan left to right, resume after each
match.  Structured with explicit fuel so that the kernel can evaluate it;
every matcher consumes at least its literal lead, so with the initial
fuel `s.length + 1` the fuel is never exhausted and the `0` and
not-shorter branches are unreachable. -/
def scanAllGo (M : List Char → Option (List Char × List Char)) :
    Nat → List Char → List (List Char)
  | 0, _ => []
  | _ + 1, [] => []
  | fuel + 1, c :: cs =>
    match M (c :: cs) with
    | some (vid, rest) =>
      if rest.length < (c :: cs).length then vid :: scanAllGo M fuel rest
      else [vid]
    | none => scanAllGo M fuel cs

def scanAll (M : List Char → Option (List Char × List Char)) (s : List Char) :
    List (List Char) :=
  scanAllGo M (s.length + 1) s

/-- The four findall runs, in the order the pattern list is tried. -/
def ytFindAll1 (body : List Char) : List (List Char) :=
  scanAll (matchRender ("\"videoRenderer\":".data)) body

def ytFindAll2 (body : List Char) : List (List Char) :=
  scanAll (matchRender ("\"compactVideoRenderer\":".data)) body

def ytFindAll3 (body : List Char) : List (List Char) :=
  scanAll matchWatchEndpoint body

def ytFindAll4 (body : List Char) : List (List Char) :=
  scanAll matchIdCore body

/-- `f"https://www.youtube.com/watch?v={videoId}"`. -/
def ytWatchUrl (vid : List Char) : String :=
  "https://www.youtube.com/watch?v=" ++ String.mk vid

/-- The inner collection loop of `_extract_video_urls`: `found_ids` starts
as the incoming set (modelled as a list, membership only), each unseen id
is recorded and its watch URL appended, and the loop breaks as soon as
five URLs are collected. -/
def ytCollect (ms0 : List (List Char)) (foundIds : List (List Char))
    (videoUrls : List String) : List (List Char) × List String :=
  match ms0 with
  | [] => (foundIds, videoUrls)
  | m :: ms =>
    if m ∈ foundIds then ytCollect ms foundIds videoUrls
    else
      let foundIds1 := foundIds ++ [m]
      let videoUrls1 := videoUrls ++ [ytWatchUrl m]
      if 5 ≤ videoUrls1.length then (foundIds1, videoUrls1)
      else ytCollect ms foundIds1 videoUrls1

/-- The outer pattern loop of `_extract_video_urls`: state threads through
the four patterns, and the loop breaks at the first pattern for which
`video_urls` is non-empty afterwards. -/
def ytPatternScan (body : List Char) : List String :=
  let r1 := ytCollect (ytFindAll1 body) [] []
  if !r1.2.isEmpty then r1.2
  else
    let r2 := ytCollect (ytFindAll2 body) r1.1 r1.2
    if !r2.2.isEmpty then r2.2
    else
      let r3 := ytCollect (ytFindAll3 body) r2.1 r2.2
      if !r3.2.isEmpty then r3.2
      else (ytCollect (ytFindAll4 body) r3.1 r3.2).2

/-- Python `url.split('v=')` on character lists (non-overlapping, left to
right, specialised to the two-character separator); `acc` carries the
reversed current segment. -/
def splitVeqGo (acc : List Char) : List Char → List (List Char)
  | [] => [acc.reverse]
  | [c] => [(c :: acc).reverse]
  | c :: d :: rest =>
    if c = 'v' ∧ d = '=' then acc.reverse :: splitVeqGo [] rest
    else splitVeqGo (c :: acc) (d :: rest)

/-- `url.split('v=')[1]` of the deduplication pass (total model: an absent
second segment yields `""`; in the code every constructed URL contains
`v=`, so that branch is unreachable). -/
def ytSplitVid (url : String) : List Char :=
  (splitVeqGo [] url.data).getD 1 []

/-- The trailing deduplication pass of `_extract_video_urls` (`seen` set
plus `unique_urls` list, keyed on `url.split('v=')[1]`). -/
def ytDedupPass (urls : List String) : List String :=
  (urls.foldl (fun acc u =>
    let vid := ytSplitVid u
    if vid ∈ acc.1 then acc else (acc.1 ++ [vid], acc.2 ++ [u])) ([], [])).2

/-- `YouTubeCrawler._extract_video_urls`. -/
def extractVideoUrls (body : String) : List String :=
  (ytDedupPass (ytPatternScan body.data)).take 5

/-- `YouTubeCrawler.clean_query`: strip characters outside
`[\w\s\-()\[\]&.']` (apostrophes kept), collapse whitespace, strip. -/
def youtubeCleanQuery (query : String) : String :=
  let kept := query.data.map (fun c =>
    if isWordChar c || isSpaceChar c ||
       c ∈ ['-', '(', ')', '[', ']', '&', '.', Char.ofNat 39] then c else ' ')
  String.mk (stripWs (collapseWs kept))

/-- `YouTubeCrawler.search`. -/
def youtubeSearch (query : String) (http : HttpResult String) : PlatformResult :=
  let cleanQuery := youtubeCleanQuery query
  match http with
  | .netError e =>
    ⟨none, 0, [("search_query", .s query)], some e⟩
  | .response status body =>
    if raisesForStatus status then
      ⟨none, 0, [("search_query", .s query)], some (httpErrorMsg status)⟩
    else
      match extractVideoUrls body with
      | [] =>
        ⟨none, 0, [("search_query", .s cleanQuery)], some "No results found"⟩
      | bestMatch :: rest =>
        ⟨some bestMatch, 8/10,
          [("search_query", .s cleanQuery),
           ("total_results", .n (bestMatch :: rest).length)],
          none⟩

/-! ### A small backtracking regex engine

The Bandcamp crawler uses `re` patterns with greedy classes (`[^>]*`),
lazy dots (`.*?`, under `re.DOTALL`), literal runs and capture groups.
They are modelled by a regex AST mirroring the pattern strings token for
token, and a standard backtracking matcher that returns the candidate
matches in backtracking priority order (greedy stars try more iterations
first, lazy stars fewer), so that the head of the list is exactly the
match Python's engine picks at that position. -/

inductive Rx where
  | eps
  | lit (c : Char)
  | cls (p : Char → Bool)
  | seq (a b : Rx)
  | starG (a : Rx)
  | starL (a : Rx)
  | grp (n : Nat) (a : Rx)

def Rx.size : Rx → Nat
  | .eps => 1
  | .lit _ => 1
  | .cls _ => 1
  | .seq a b => a.size + b.size + 1
  | .starG a => a.size + 1
  | .starL a => a.size + 1
  | .grp _ a => a.size + 1

/-- Greedy star iteration: given the body's matcher `f`, produce the
candidate remainders in backtracking priority order — more iterations
first.  `n` bounds the number of iterations; each iteration must consume
input (as in Python, where a star stops on an empty iteration), so the
initial `n = s.length + 1` is never exhausted at a reachable state. -/
def iterStarG (f : List Char → List (List Char × List (Nat × List Char))) :
    Nat → List Char → List (List Char × List (Nat × List Char))
  | 0, s => [(s, [])]
  | n + 1, s =>
    (f s).flatMap (fun m1 =>
      if m1.1.length < s.length then
        (iterStarG f n m1.1).map (fun m2 => (m2.1, m1.2 ++ m2.2))
      else []) ++ [(s, [])]

/-- Lazy star iteration: fewer iterations first. -/
def iterStarL (f : List Char → List (List Char × List (Nat × List Char))) :
    Nat → List Char → List (List Char × List (Nat × List Char))
  | 0, s => [(s, [])]
  | n + 1, s =>
    (s, []) :: (f s).flatMap (fun m1 =>
      if m1.1.length < s.length then
        (iterStarL f n m1.1).map (fun m2 => (m2.1, m1.2 ++ m2.2))
      else [])

/-- All ways `r` can match a prefix of `s`, in backtracking priority
order; each entry is the remaining input and the captures recorded so
far.  `ci` selects `re.IGNORECASE`. -/
def rxMatches (ci : Bool) : Rx → List Char → List (List Char × List (Nat × List Char))
  | .eps, s => [(s, [])]
  | .lit c, s =>
    match s with
    | [] => []
    | d :: ds =>
      if (if ci then d.toLower = c.toLower else d = c) then [(ds, [])] else []
  | .cls p, s =>
    match s with
    | [] => []
    | d :: ds => if p d then [(ds, [])] else []
  | .seq a b, s =>
    (rxMatches ci a s).flatMap (fun m1 =>
      (rxMatches ci b m1.1).map (fun m2 => (m2.1, m1.2 ++ m2.2)))
  | .starG a, s => iterStarG (rxMatches ci a) (s.length + 1) s
  | .starL a, s => iterStarL (rxMatches ci a) (s.length + 1) s
  | .grp n a, s =>
    (rxMatches ci a s).map (fun m1 =>
      (m1.1, m1.2 ++ [(n, s.take (s.length - m1.1.length))]))

/-- The capture of group `n` in a match (last binding wins, as in Python). -/
def capLookup (caps : List (Nat × List Char)) (n : Nat) : List Char :=
  match caps.reverse.find? (fun p => p.1 == n) with
  | some p => p.2
  | none => []

/-- `re.finditer`-style scan: attempt a match at each position from left
to right, resume after each non-overlapping match.  Fuel-structured for
kernel evaluation; none of the source's patterns can match the empty
string, so with the initial fuel `s.length + 1` the `0` and not-shorter
branches are unreachable. -/
def rxFindAllGo (ci : Bool) (r : Rx) : Nat → List Char → List (List (Nat × List Char))
  | 0, _ => []
  | _ + 1, [] =>
    match (rxMatches ci r []).head? with
    | some m => [m.2]
    | none => []
  | fuel + 1, c :: cs =>
    match (rxMatches ci r (c :: cs)).head? with
    | some m =>
      if m.1.length < (c :: cs).length then m.2 :: rxFindAllGo ci r fuel m.1
      else [m.2]
    | none => rxFindAllGo ci r fuel cs

def rxFindAll (ci : Bool) (r : Rx) (s : List Char) :
    List (List (Nat × List Char)) :=
  rxFindAllGo ci r (s.length + 1) s

/-- `re.sub(pattern, '', s)`: delete each non-overlapping match, scanning
left to right (same fuel discipline as `rxFindAllGo`). -/
def rxSubEmptyGo (ci : Bool) (r : Rx) : Nat → List Char → List Char
  | 0, s => s
  | _ + 1, [] => []
  | fuel + 1, c :: cs =>
    match (rxMatches ci r (c :: cs)).head? with
    | some m =>
      if m.1.length < (c :: cs).length then rxSubEmptyGo ci r fuel m.1
      else c :: rxSubEmptyGo ci r fuel cs
    | none => c :: rxSubEmptyGo ci r fuel cs

def rxSubEmpty (ci : Bool) (r : Rx) (s : List Char) : List Char :=
  rxSubEmptyGo ci r (s.length + 1) s

/-- A sequence of regexes, chained with `Rx.seq`. -/
def rxSeq (rs : List Rx) : Rx :=
  rs.foldr Rx.seq .eps

/-- A literal string, as a regex. -/
def rxLits (s : String) : Rx :=
  rxSeq (s.data.map Rx.lit)

/-- `[^c]*` (greedy). -/
def rxNotCh (c : Char) : Rx :=
  .starG (.cls (fun d => d ≠ c))

/-- `.*?` under `re.DOTALL` (lazy, matches anything). -/
def rxLazyAny : Rx :=
  .starL (.cls (fun _ => true))

/-! ### Bandcamp crawler (src/crawlers/bandcamp.py) -/

/-- The remix/mix annotation pattern `\s*\([^)]*WORD[^)]*\)` of
`BandcampCrawler.clean_query` (applied with `re.IGNORECASE`). -/
def bcParenPattern (word : String) : Rx :=
  rxSeq [.starG (.cls isSpaceChar), .lit '(', rxNotCh ')', rxLits word,
         rxNotCh ')', .lit ')']

/-- `BandcampCrawler.clean_query`: strip characters outside
`[\w\s\-()\[\]&.']`, collapse whitespace, strip, then delete
parenthesised `remix` and `mix` annotations (case-insensitively). -/
def bandcampCleanQuery (query : String) : String :=
  let kept := query.data.map (fun c =>
    if isWordChar c || isSpaceChar c ||
       c ∈ ['-', '(', ')', '[', ']', '&', '.', Char.ofNat 39] then c else ' ')
  let cleaned := stripWs (collapseWs kept)
  let cleaned := rxSubEmpty true (bcParenPattern "remix") cleaned
  let cleaned := rxSubEmpty true (bcParenPattern "mix") cleaned
  String.mk cleaned

/-- The Bandcamp search URL `f"https://bandcamp.com/search?q={quote(q)}"`. -/
def bandcampSearchUrl (cleanQuery : String) : String :=
  "https://bandcamp.com/search?q=" ++ urlQuote cleanQuery

/-- First structural extraction pattern of `_extract_search_results`:
`<div[^>]*class="[^"]*result[^"]*"[^>]*>.*?<a[^>]*href="([^"]*)"[^>]*>.*?`
`<div[^>]*class="[^"]*heading[^"]*"[^>]*>([^<]*)</div>.*?`
`<div[^>]*class="[^"]*subhead[^"]*"[^>]*>([^<]*)</div>`
(`re.DOTALL | re.IGNORECASE`); `q34` is the double-quote character. -/
def bcPattern1 : Rx :=
  let q34 := Char.ofNat 34
  rxSeq [rxLits "<div", rxNotCh '>', rxLits "class=", .lit q34, rxNotCh q34,
         rxLits "result", rxNotCh q34, .lit q34, rxNotCh '>', .lit '>',
         rxLazyAny,
         rxLits "<a", rxNotCh '>', rxLits "href=", .lit q34,
         .grp 1 (rxNotCh q34), .lit q34, rxNotCh '>', .lit '>',
         rxLazyAny,
         rxLits "<div", rxNotCh '>', rxLits "class=", .lit q34, rxNotCh q34,
         rxLits "heading", rxNotCh q34, .lit q34, rxNotCh '>', .lit '>',
         .grp 2 (rxNotCh '<'), rxLits "</div>",
         rxLazyAny,
         rxLits "<div", rxNotCh '>', rxLits "class=", .lit q34, rxNotCh q34,
         rxLits "subhead", rxNotCh q34, .lit q34, rxNotCh '>', .lit '>',
         .grp 3 (rxNotCh '<'), rxLits "</div>"]

/-- Second structural pattern:
`<a[^>]*href="([^"]*)"[^>]*class="[^"]*result[^"]*"[^>]*>.*?`
`<div[^>]*class="[^"]*heading[^"]*"[^>]*>([^<]*)</div>.*?`
`<div[^>]*class="[^"]*subhead[^"]*"[^>]*>([^<]*)</div>`. -/
def bcPattern2 : Rx :=
  let q34 := Char.ofNat 34
  rxSeq [rxLits "<a", rxNotCh '>', rxLits "href=", .lit q34,
         .grp 1 (rxNotCh q34), .lit q34, rxNotCh '>',
         rxLits "class=", .lit q34, rxNotCh q34, rxLits "result", rxNotCh q34,
         .lit q34, rxNotCh '>', .lit '>',
         rxLazyAny,
         rxLits "<div", rxNotCh '>', rxLits "class=", .lit q34, rxNotCh q34,
         rxLits "heading", rxNotCh q34, .lit q34, rxNotCh '>', .lit '>',
         .grp 2 (rxNotCh '<'), rxLits "</div>",
         rxLazyAny,
         rxLits "<div", rxNotCh '>', rxLits "class=", .lit q34, rxNotCh q34,
         rxLits "subhead", rxNotCh q34, .lit q34, rxNotCh '>', .lit '>',
         .grp 3 (rxNotCh '<'), rxLits "</div>"]

/-- Fallback link pattern `href="(https://[^"]*\.bandcamp\.com/[^"]*)"`
(no flags). -/
def bcLinkPattern : Rx :=
  let q34 := Char.ofNat 34
  rxSeq [rxLits "href=", .lit q34,
         .grp 1 (rxSeq [rxLits "https://", rxNotCh q34,
                        rxLits ".bandcamp.com/", rxNotCh q34]),
         .lit q34]

/-- Fallback title pattern `<[^>]*class="[^"]*heading[^"]*"[^>]*>([^<]+)</[^>]*>`
(no flags; `[^<]+` is one class character followed by its star). -/
def bcTitlePattern : Rx :=
  let q34 := Char.ofNat 34
  rxSeq [.lit '<', rxNotCh '>', rxLits "class=", .lit q34, rxNotCh q34,
         rxLits "heading", rxNotCh q34, .lit q34, rxNotCh '>', .lit '>',
         .grp 1 (rxSeq [.cls (fun d => d ≠ '<'), rxNotCh '<']),
         rxLits "</", rxNotCh '>', .lit '>']

/-- One structured Bandcamp search result (all keys are always present). -/
structure BcResult where
  url : String
  title : String
  artist : String
  album : String
deriving DecidableEq

/-- The URL clean-up block of `_extract_search_results`. -/
def bcCleanUrl (url : String) : String :=
  if pyStartsWith url "/" then "https://bandcamp.com" ++ url
  else if !(pyStartsWith url "http") then "https://bandcamp.com/" ++ url
  else url

/-- `any(skip in url.lower() for skip in ['/tag/', '/label/', '/fan/'])`. -/
def bcSkipUrl (url : String) : Bool :=
  let l := String.mk (lowerData url)
  pyContains l "/tag/" || pyContains l "/label/" || pyContains l "/fan/"

/-- The inner match loop of `_extract_search_results` for one pattern:
clean the captured URL, skip non-music links, append, break at five. -/
def bcInner (ms0 : List (List (Nat × List Char))) (results : List BcResult) :
    List BcResult :=
  match ms0 with
  | [] => results
  | m :: ms =>
    let url := bcCleanUrl (String.mk (capLookup m 1))
    let title := String.mk (stripWs (capLookup m 2))
    let artist := String.mk (stripWs (capLookup m 3))
    if bcSkipUrl url then bcInner ms results
    else
      let results1 := results ++ [⟨url, title, artist, ""⟩]
      if 5 ≤ results1.length then results1 else bcInner ms results1

/-- `BandcampCrawler._extract_simple_results`: pair the first five
platform-domain links with the heading texts at the same index
(`"Unknown Track"` when there are fewer headings than links). -/
def bcSimpleResults (body : List Char) : List BcResult :=
  let links := (rxFindAll false bcLinkPattern body).map
    (fun m => String.mk (capLookup m 1))
  let titles := (rxFindAll false bcTitlePattern body).map
    (fun m => String.mk (capLookup m 1))
  (links.take 5).mapIdx (fun i link =>
    ⟨link, String.mk (stripWs (titles.getD i "Unknown Track").data), "", ""⟩)

/-- `BandcampCrawler._extract_search_results`: the two structural patterns
in order (state threads; the loop breaks at the first pattern that yields
results), then the simple fallback, capped at five. -/
def bandcampExtractResults (body : String) : List BcResult :=
  let r1 := bcInner (rxFindAll true bcPattern1 body.data) []
  let r2 := if !r1.isEmpty then r1
            else bcInner (rxFindAll true bcPattern2 body.data) r1
  let r3 := if !r2.isEmpty then r2 else bcSimpleResults body.data
  r3.take 5

/-- `result.get('title', '').lower()` of the Bandcamp scorer. -/
def bcTitleLower (result : BcResult) : List Char :=
  lowerData result.title

/-- `result.get('artist', '').lower()` of the Bandcamp scorer. -/
def bcArtistLower (result : BcResult) : List Char :=
  lowerData result.artist

/-- `BandcampCrawler._calculate_confidence`. -/
def bandcampCalcConfidence (originalQuery : String) (result : BcResult) : ℚ :=
  let title := bcTitleLower result
  let artist := bcArtistLower result
  let queryLower := lowerData originalQuery
  if queryLower <:+: title ∨ title <:+: queryLower then 9/10
  else if queryLower <:+: artist ∨ artist <:+: queryLower then 8/10
  else
    let queryWords := wordSetOf queryLower
    let titleWords := wordSetOf title
    let artistWords := wordSetOf artist
    let allResultWords := titleWords.union artistWords
    if !queryWords.isEmpty && !allResultWords.isEmpty then
      let overlap := (queryWords.inter allResultWords).length
      let totalWords := (queryWords.union allResultWords).length
      min (7/10) ((overlap : ℚ) / (totalWords : ℚ))
    else 1/2

/-- `BandcampCrawler.search`: network exception; 403 and 429 degrade to
the search URL itself at confidence 0.6; other 4xx/5xx raise and are
caught; otherwise extract, score the first result, or report no results. -/
def bandcampSearch (query : String) (http : HttpResult String) : PlatformResult :=
  let cleanQuery := bandcampCleanQuery query
  let searchUrl := bandcampSearchUrl cleanQuery
  match http with
  | .netError e =>
    ⟨none, 0, [("search_query", .s query)], some e⟩
  | .response status body =>
    if status = 403 then
      ⟨some searchUrl, 6/10,
        [("search_query", .s cleanQuery), ("search_url", .s searchUrl),
         ("note", .s "Manual search required - Bandcamp blocked automated requests")],
        none⟩
    else if status = 429 then
      ⟨some searchUrl, 6/10,
        [("search_query", .s cleanQuery), ("search_url", .s searchUrl),
         ("note", .s "Manual search required - Bandcamp rate limited")],
        none⟩
    else if raisesForStatus status then
      ⟨none, 0, [("search_query", .s query)], some (httpErrorMsg status)⟩
    else
      match bandcampExtractResults body with
      | [] =>
        ⟨none, 0, [("search_query", .s cleanQuery)], some "No results found"⟩
      | bestMatch :: rest =>
        ⟨some bestMatch.url, bandcampCalcConfidence query bestMatch,
          [("title", .s bestMatch.title), ("artist", .s bestMatch.artist),
           ("album", .s bestMatch.album), ("search_query", .s cleanQuery),
           ("total_results", .n (bestMatch :: rest).length)],
          none⟩

/-! ### Search manager (src/search_manager.py) -/

/-- One remote-surface behaviour per crawler; a crawler's `search` is a
deterministic function of its query and its HTTP outcome. -/
structure RemoteEnv where
  youtube : HttpResult String
  discogs : HttpResult DiscogsBody
  bandcamp : HttpResult String

/-- The keys of `SearchManager.crawlers` (fixed at construction). -/
def crawlerNames : List String :=
  ["youtube", "discogs", "bandcamp"]

/-- Dispatch `self.crawlers[platform_name].search(track)`. -/
def crawlerSearch (env : RemoteEnv) (name track : String) : PlatformResult :=
  if name = "youtube" then youtubeSearch track env.youtube
  else if name = "discogs" then discogsSearch track env.discogs
  else bandcampSearch track env.bandcamp

/-- Python truthiness of `result['url']`: `None` and `""` are falsy. -/
def truthyUrl (u : Option String) : Bool :=
  match u with
  | none => false
  | some s => s ≠ ""

/-- The fold step of `SearchManager._find_best_match`:
`if result['url'] and result['confidence'] > best_confidence`. -/
def bmStep (acc : Option String × ℚ) (pr : String × PlatformResult) :
    Option String × ℚ :=
  if truthyUrl pr.2.url ∧ acc.2 < pr.2.confidence then (some pr.1, pr.2.confidence)
  else acc

/-- `SearchManager._find_best_match` over the aggregated results, in scan
order: the final `best_platform`/`best_confidence` pair, with the
trailing `if best_platform else {None, 0.0}` guard. -/
def findBestMatch (rs : List (String × PlatformResult)) : Option String × ℚ :=
  let best := rs.foldl bmStep (none, 0)
  match best.1 with
  | some _ => best
  | none => (none, 0)

/-- The aggregated per-track record `search_track` returns.  `platforms`
is an insertion-ordered mapping , one entry per enabled platform. -/
structure AggregatedSearchResult where
  track : String
  platforms : List (String × PlatformResult)
  best_match : Option String × ℚ
deriving DecidableEq

/-- `SearchManager.search_track`: query every enabled platform that has a
crawler (in the enabled set's iteration order, modelled as a list), then
aggregate.  The inter-platform pacing sleep does not affect the result. -/
def searchTrack (env : RemoteEnv) (enabledPlatforms : List String)
    (track : String) : AggregatedSearchResult :=
  let results := (enabledPlatforms.filter (fun p => p ∈ crawlerNames)).map
    (fun p => (p, crawlerSearch env p track))
  ⟨track, results, findBestMatch results⟩

/-! ### Specification-side definitions

These definitions follow the words of the specification (not the code);
the theorems below compare the code-derived definitions against them. -/

/-- Spec-side: deduplicate preserving first-seen order. -/
def dedupFirstSeen (ms0 : List (List Char)) : List (List Char) :=
  ms0.foldl (fun acc m => if m ∈ acc then acc else acc ++ [m]) []

/-- Spec-side: the match list of the first of the four Video-platform
patterns that yields any match. -/
def ytFirstPatternMatches (body : List Char) : List (List Char) :=
  if !(ytFindAll1 body).isEmpty then ytFindAll1 body
  else if !(ytFindAll2 body).isEmpty then ytFindAll2 body
  else if !(ytFindAll3 body).isEmpty then ytFindAll3 body
  else ytFindAll4 body

/-- Spec-side description of the Video extraction: identifiers of the
first pattern that matches, deduplicated preserving first-seen order, at
most five retained, each shaped `base watch URL + identifier`. -/
def ytSpecExtract (body : String) : List String :=
  ((dedupFirstSeen (ytFirstPatternMatches body.data)).take 5).map ytWatchUrl

/-- Spec-side: the maximum `confidence` among entries with a (truthy)
url, `0` when there are none. -/
def maxTruthyConf (rs : List (String × PlatformResult)) : ℚ :=
  (rs.filter (fun pr => truthyUrl pr.2.url)).foldr
    (fun pr m => max pr.2.confidence m) 0

/-- Spec-side: the first scanned platform with a truthy url attaining
confidence `m`. -/
def firstAttaining (m : ℚ) (rs : List (String × PlatformResult)) : Option String :=
  (rs.find? (fun pr => truthyUrl pr.2.url && pr.2.confidence == m)).map (·.1)

/-- Spec-side: whitespace-only (or empty) query string. -/
def isWsOnly (q : String) : Bool :=
  q.data.all isSpaceChar

/-! ### Helper predicates and fixtures used by the theorems -/

/-- The containment branch of the Discogs scorer
(`query_lower in title or title in query_lower`). -/
def discogsContainMatch (q : String) (rec : DiscogsRecord) : Prop :=
  lowerData q <:+: discogsTitleLower rec ∨ discogsTitleLower rec <:+: lowerData q

/-- Both word sets of the Discogs scorer are non-empty yet share no word. -/
def discogsDisjointWords (q : String) (rec : DiscogsRecord) : Prop :=
  wordSetOf (lowerData q) ≠ [] ∧ wordSetOf (discogsTitleLower rec) ≠ [] ∧
  (wordSetOf (lowerData q)).inter (wordSetOf (discogsTitleLower rec)) = []

/-- Either containment branch of the Bandcamp scorer (title or artist). -/
def bandcampContainMatch (q : String) (r : BcResult) : Prop :=
  lowerData q <:+: bcTitleLower r ∨ bcTitleLower r <:+: lowerData q ∨
  lowerData q <:+: bcArtistLower r ∨ bcArtistLower r <:+: lowerData q

/-- `all_result_words = title_words.union(artist_words)` of the Bandcamp
scorer. -/
def bandcampResultWords (r : BcResult) : List (List Char) :=
  (wordSetOf (bcTitleLower r)).union (wordSetOf (bcArtistLower r))

/-- Both Bandcamp word sets are non-empty yet share no word. -/
def bandcampDisjointWords (q : String) (r : BcResult) : Prop :=
  wordSetOf (lowerData q) ≠ [] ∧ bandcampResultWords r ≠ [] ∧
  (wordSetOf (lowerData q)).inter (bandcampResultWords r) = []

/-- Proof-support mirror of the inner collection loop, carrying only the
identifier list (the URL list is always its `ytWatchUrl` image). -/
def dedupTake (found : List (List Char)) (ms0 : List (List Char)) :
    List (List Char) :=
  match ms0 with
  | [] => found
  | m :: ms =>
    if m ∈ found then dedupTake found ms
    else if 5 ≤ (found ++ [m]).length then found ++ [m]
    else dedupTake (found ++ [m]) ms

/-- First-seen deduplication continuing from an already collected list. -/
def dedupFrom (found : List (List Char)) (ms0 : List (List Char)) :
    List (List Char) :=
  ms0.foldl (fun acc m => if m ∈ acc then acc else acc ++ [m]) found

/-- A Video response blob with one identifier in a `videoRenderer` field. -/
def ytOneBlob : String :=
  "\"videoRenderer\": \x7b\"videoId\":\"AAAAAAAAAA1\"\x7d"

/-- A Video response blob with three distinct identifiers in
`videoRenderer` fields (the scenario of the specification). -/
def ytThreeBlob : String :=
  "\"videoRenderer\": \x7b\"videoId\":\"AAAAAAAAAA1\"\x7d,\"videoRenderer\": \x7b\"videoId\":\"BBBBBBBBBB2\"\x7d,\"videoRenderer\": \x7b\"videoId\":\"CCCCCCCCCC3\"\x7d"

/-- The confidences of the entries with a truthy url, in scan order. -/
def confsOf (rs : List (String × PlatformResult)) : List ℚ :=
  (rs.filter (fun pr => truthyUrl pr.2.url)).map (fun pr => pr.2.confidence)

/-! ### General lemmas about the best-match fold -/

theorem confsOf_cons (pr : String × PlatformResult) (rs : List (String × PlatformResult)) :
    confsOf (pr :: rs) =
      if truthyUrl pr.2.url then pr.2.confidence :: confsOf rs else confsOf rs := by
  simp only [confsOf, List.filter_cons]
  split <;> simp

theorem maxTruthyConf_eq_foldr (rs : List (String × PlatformResult)) :
    maxTruthyConf rs = (confsOf rs).foldr max 0 := by
  simp [maxTruthyConf, confsOf, List.foldr_map]

theorem foldrMax_init_le (l : List ℚ) (a : ℚ) : a ≤ l.foldr max a := by
  induction l with
  | nil => simp
  | cons c l ih => exact le_trans ih (le_max_right c _)

theorem foldrMax_shift (l : List ℚ) (x y : ℚ) :
    l.foldr max (max x y) = max x (l.foldr max y) := by
  induction l with
  | nil => rfl
  | cons c l ih => simp only [List.foldr_cons, ih, max_left_comm]

theorem foldrMax_mem_le (l : List ℚ) (a : ℚ) : ∀ x ∈ l, x ≤ l.foldr max a := by
  induction l with
  | nil => intro x hx; cases hx
  | cons c l ih =>
    intro x hx
    rcases List.mem_cons.mp hx with h | h
    · subst h; exact le_max_left _ _
    · exact le_trans (ih x h) (le_max_right _ _)

theorem foldrMax_choice (l : List ℚ) : l.foldr max 0 = 0 ∨ l.foldr max 0 ∈ l := by
  induction l with
  | nil => left; rfl
  | cons c l ih =>
    rcases max_choice c (l.foldr max 0) with h | h
    · right; rw [List.foldr_cons, h]; exact List.mem_cons_self _ _
    · rcases ih with h0 | hm
      · left; rw [List.foldr_cons, h, h0]
      · right; rw [List.foldr_cons, h]; exact List.mem_cons_of_mem _ hm

theorem bmFold_snd (rs : List (String × PlatformResult)) :
    ∀ acc : Option String × ℚ,
      (rs.foldl bmStep acc).2 = (confsOf rs).foldr max acc.2 := by
  induction rs with
  | nil => intro acc; rfl
  | cons pr rest ih =>
    intro acc
    rw [List.foldl_cons, confsOf_cons]
    by_cases ht : truthyUrl pr.2.url
    · by_cases hc : acc.2 < pr.2.confidence
      · have hstep : bmStep acc pr = (some pr.1, pr.2.confidence) := by
          simp [bmStep, ht, hc]
        rw [hstep, ih, if_pos ht, List.foldr_cons]
        have hshift := foldrMax_shift (confsOf rest) pr.2.confidence acc.2
        rw [max_eq_left (le_of_lt hc)] at hshift
        exact hshift
      · have hstep : bmStep acc pr = acc := by
          simp [bmStep, hc]
        rw [hstep, ih, if_pos ht, List.foldr_cons]
        have hle : pr.2.confidence ≤ (confsOf rest).foldr max acc.2 :=
          le_trans (not_lt.mp hc) (foldrMax_init_le _ _)
        exact (max_eq_right hle).symm
    · have hstep : bmStep acc pr = acc := by
        simp [bmStep, ht]
      rw [hstep, ih, if_neg ht]

theorem bmFold_stay (rs : List (String × PlatformResult)) :
    ∀ acc : Option String × ℚ,
      (∀ x ∈ confsOf rs, x ≤ acc.2) → rs.foldl bmStep acc = acc := by
  induction rs with
  | nil => intro acc _; rfl
  | cons pr rest ih =>
    intro acc hbd
    rw [List.foldl_cons]
    by_cases ht : truthyUrl pr.2.url
    · have hmem : pr.2.confidence ∈ confsOf (pr :: rest) := by
        rw [confsOf_cons, if_pos ht]; exact List.mem_cons_self _ _
      have hc : ¬ acc.2 < pr.2.confidence := not_lt.mpr (hbd _ hmem)
      have hstep : bmStep acc pr = acc := by simp [bmStep, hc]
      rw [hstep]
      refine ih acc (fun x hx => hbd x ?_)
      rw [confsOf_cons, if_pos ht]; exact List.mem_cons_of_mem _ hx
    · have hstep : bmStep acc pr = acc := by simp [bmStep, ht]
      rw [hstep]
      refine ih acc (fun x hx => hbd x ?_)
      rw [confsOf_cons, if_neg ht]; exact hx

theorem bmFold_fst (rs : List (String × PlatformResult)) :
    ∀ acc : Option String × ℚ, 0 ≤ acc.2 →
      acc.2 < (confsOf rs).foldr max 0 →
      (rs.foldl bmStep acc).1 = firstAttaining ((confsOf rs).foldr max 0) rs := by
  induction rs with
  | nil =>
    intro acc h0 hlt
    simp only [confsOf, List.filter_nil, List.map_nil, List.foldr_nil] at hlt
    exact absurd hlt (not_lt.mpr h0)
  | cons pr rest ih =>
    intro acc h0 hlt
    rw [List.foldl_cons]
    by_cases ht : truthyUrl pr.2.url
    · have hM : (confsOf (pr :: rest)).foldr max 0 =
          max pr.2.confidence ((confsOf rest).foldr max 0) := by
        rw [confsOf_cons, if_pos ht, List.foldr_cons]
      by_cases hceq : pr.2.confidence = (confsOf (pr :: rest)).foldr max 0
      · have hacc : acc.2 < pr.2.confidence := by rw [hceq]; exact hlt
        have hstep : bmStep acc pr = (some pr.1, pr.2.confidence) := by
          simp [bmStep, ht, hacc]
        rw [hstep]
        have hstay : rest.foldl bmStep (some pr.1, pr.2.confidence) =
            (some pr.1, pr.2.confidence) := by
          refine bmFold_stay rest _ (fun x hx => ?_)
          have : x ≤ (confsOf rest).foldr max 0 := foldrMax_mem_le _ _ x hx
          refine le_trans this ?_
          rw [hceq, hM]; exact le_max_right _ _
        rw [hstay]
        have hfind : List.find? (fun pr2 : String × PlatformResult =>
            truthyUrl pr2.2.url && pr2.2.confidence ==
              (confsOf (pr :: rest)).foldr max 0) (pr :: rest) = some pr :=
          List.find?_cons_of_pos _ (by simp [ht, hceq])
        unfold firstAttaining
        rw [hfind]
        rfl
      · have hcl : pr.2.confidence < (confsOf (pr :: rest)).foldr max 0 :=
          lt_of_le_of_ne (by rw [hM]; exact le_max_left _ _) hceq
        have hMr : (confsOf (pr :: rest)).foldr max 0 =
            (confsOf rest).foldr max 0 := by
          rcases max_choice pr.2.confidence ((confsOf rest).foldr max 0) with h | h
          · exact absurd (hM.trans h).symm hceq
          · exact hM.trans h
        have hfind : List.find? (fun pr2 : String × PlatformResult =>
            truthyUrl pr2.2.url && pr2.2.confidence ==
              (confsOf (pr :: rest)).foldr max 0) (pr :: rest) =
            List.find? (fun pr2 : String × PlatformResult =>
              truthyUrl pr2.2.url && pr2.2.confidence ==
                (confsOf (pr :: rest)).foldr max 0) rest :=
          List.find?_cons_of_neg _ (by simp [hceq])
        have hfa : firstAttaining ((confsOf (pr :: rest)).foldr max 0) (pr :: rest) =
            firstAttaining ((confsOf (pr :: rest)).foldr max 0) rest := by
          unfold firstAttaining
          rw [hfind]
        rw [hfa, hMr]
        by_cases hacc : acc.2 < pr.2.confidence
        · have hstep : bmStep acc pr = (some pr.1, pr.2.confidence) := by
            simp [bmStep, ht, hacc]
          rw [hstep]
          exact ih _ (le_of_lt (lt_of_le_of_lt h0 hacc)) (by rw [← hMr]; exact hcl)
        · have hstep : bmStep acc pr = acc := by simp [bmStep, hacc]
          rw [hstep]
          exact ih acc h0 (by rw [← hMr]; exact hlt)
    · have hstep : bmStep acc pr = acc := by simp [bmStep, ht]
      have hcs : confsOf (pr :: rest) = confsOf rest := by
        rw [confsOf_cons, if_neg ht]
      have hfind : List.find? (fun pr2 : String × PlatformResult =>
          truthyUrl pr2.2.url && pr2.2.confidence ==
            (confsOf (pr :: rest)).foldr max 0) (pr :: rest) =
          List.find? (fun pr2 : String × PlatformResult =>
            truthyUrl pr2.2.url && pr2.2.confidence ==
              (confsOf (pr :: rest)).foldr max 0) rest :=
        List.find?_cons_of_neg _ (by simp [ht])
      have hfa : firstAttaining ((confsOf (pr :: rest)).foldr max 0) (pr :: rest) =
          firstAttaining ((confsOf (pr :: rest)).foldr max 0) rest := by
        unfold firstAttaining
        rw [hfind]
      rw [hstep, hfa, hcs]
      rw [hcs] at hlt
      exact ih acc h0 hlt

theorem bmFold_fst_mem (rs : List (String × PlatformResult)) :
    ∀ acc p, (rs.foldl bmStep acc).1 = some p →
      acc.1 = some p ∨ ∃ r, (p, r) ∈ rs ∧ truthyUrl r.url = true := by
  induction rs with
  | nil => intro acc p h; exact Or.inl h
  | cons pr rest ih =>
    intro acc p h
    rw [List.foldl_cons] at h
    rcases ih _ p h with hstep | ⟨r, hr, htr⟩
    · by_cases hc : truthyUrl pr.2.url ∧ acc.2 < pr.2.confidence
      · have : bmStep acc pr = (some pr.1, pr.2.confidence) := by
          simp [bmStep, hc.1, hc.2]
        rw [this] at hstep
        right
        refine ⟨pr.2, ?_, hc.1⟩
        have : p = pr.1 := by
          simpa using hstep.symm
        rw [this]
        exact List.mem_cons_self _ _
      · have : bmStep acc pr = acc := by simp [bmStep]; intro h1 h2; exact absurd ⟨h1, h2⟩ hc
        rw [this] at hstep
        exact Or.inl hstep
    · exact Or.inr ⟨r, List.mem_cons_of_mem _ hr, htr⟩

theorem findBestMatch_fst (rs : List (String × PlatformResult)) :
    (findBestMatch rs).1 = (rs.foldl bmStep (none, 0)).1 := by
  unfold findBestMatch
  rcases h : (rs.foldl bmStep (none, 0)).1 with _ | p <;> simp [h]

theorem foldrMax_attained (rs : List (String × PlatformResult)) :
    0 < (confsOf rs).foldr max 0 →
    ∃ pr, pr ∈ rs ∧ truthyUrl pr.2.url = true ∧
      pr.2.confidence = (confsOf rs).foldr max 0 := by
  intro hpos
  rcases foldrMax_choice (confsOf rs) with h0 | hm
  · rw [h0] at hpos; exact absurd hpos (lt_irrefl 0)
  · rcases List.mem_map.mp hm with ⟨pr, hpr, hconf⟩
    rcases List.mem_filter.mp hpr with ⟨hmem, htr⟩
    exact ⟨pr, hmem, htr, hconf⟩

theorem searchTrack_platforms (env : RemoteEnv) (enabled : List String) (t : String) :
    (searchTrack env enabled t).platforms =
      (enabled.filter (fun p => p ∈ crawlerNames)).map
        (fun p => (p, crawlerSearch env p t)) := rfl

theorem searchTrack_best (env : RemoteEnv) (enabled : List String) (t : String) :
    (searchTrack env enabled t).best_match =
      findBestMatch (searchTrack env enabled t).platforms := rfl

theorem findBestMatch_mem (rs : List (String × PlatformResult)) (p : String) :
    (findBestMatch rs).1 = some p →
    ∃ r, (p, r) ∈ rs ∧ truthyUrl r.url = true := by
  intro h
  rw [findBestMatch_fst] at h
  rcases bmFold_fst_mem rs (none, 0) p h with h0 | hex
  · cases h0
  · exact hex

theorem findBestMatch_spec (rs : List (String × PlatformResult)) :
    (findBestMatch rs).2 = maxTruthyConf rs ∧
    (0 < maxTruthyConf rs →
      (findBestMatch rs).1 = firstAttaining (maxTruthyConf rs) rs) ∧
    (maxTruthyConf rs = 0 → findBestMatch rs = (none, 0)) := by
  have hM := maxTruthyConf_eq_foldr rs
  have hfold2 : (rs.foldl bmStep (none, 0)).2 = (confsOf rs).foldr max 0 := by
    simpa using bmFold_snd rs (none, 0)
  have hzero : maxTruthyConf rs = 0 → findBestMatch rs = (none, 0) := by
    intro h0
    have hstay : rs.foldl bmStep (none, 0) = (none, 0) := by
      refine bmFold_stay rs (none, 0) (fun x hx => ?_)
      have := foldrMax_mem_le (confsOf rs) 0 x hx
      rw [← hM, h0] at this
      simpa using this
    unfold findBestMatch
    rw [hstay]
  have hpos : 0 < maxTruthyConf rs →
      (findBestMatch rs).1 = firstAttaining (maxTruthyConf rs) rs := by
    intro h0
    rw [findBestMatch_fst, hM]
    exact bmFold_fst rs (none, 0) (le_refl 0) (by rw [← hM]; simpa using h0)
  refine ⟨?_, hpos, hzero⟩
  rcases eq_or_lt_of_le (by rw [hM]; exact foldrMax_init_le _ _ :
      (0 : ℚ) ≤ maxTruthyConf rs) with h0 | hlt
  · rw [hzero h0.symm, h0]
  · have h1 := hpos hlt
    have hsome : (firstAttaining (maxTruthyConf rs) rs).isSome := by
      obtain ⟨pr, hmem, htr, hconf⟩ := foldrMax_attained rs (by rw [← hM]; exact hlt)
      rw [← hM] at hconf
      unfold firstAttaining
      rcases hfind : List.find? (fun pr2 : String × PlatformResult =>
          truthyUrl pr2.2.url && pr2.2.confidence == maxTruthyConf rs) rs with _ | x
      · have hnone := List.find?_eq_none.mp hfind pr hmem
        simp [htr, hconf] at hnone
      · simp
    unfold findBestMatch
    rcases hf : (rs.foldl bmStep (none, 0)).1 with _ | p
    · rw [findBestMatch_fst] at h1
      rw [hf] at h1
      rw [← h1] at hsome
      cases hsome
    · simp only [hf]
      rw [hfold2, hM]

/-- Claim C2 (amended): `best_match.confidence` equals the maximum
confidence among `platforms` entries whose url is non-null **and
non-empty** (Python truthiness); when that maximum is positive,
`best_match.platform` is the first scanned platform attaining it; when it
is zero (no truthy-url entry, or all such entries have confidence 0.0),
`best_match` is `{platform: null, confidence: 0.0}` even if truthy-url
entries exist. -/
theorem claim2_best_match_amended (env : RemoteEnv) (enabled : List String) (t : String) :
    (searchTrack env enabled t).best_match.2 =
      maxTruthyConf (searchTrack env enabled t).platforms ∧
    (0 < maxTruthyConf (searchTrack env enabled t).platforms →
      (searchTrack env enabled t).best_match.1 =
        firstAttaining (maxTruthyConf (searchTrack env enabled t).platforms)
          (searchTrack env enabled t).platforms) ∧
    (maxTruthyConf (searchTrack env enabled t).platforms = 0 →
      (searchTrack env enabled t).best_match = (none, 0)) := by
  rw [searchTrack_best]
  exact findBestMatch_spec _

/-- Claim C8: a platform name outside the enabled set contributes no key
to `platforms` and is never selected by `best_match`; with all platforms
disabled the result is `{track: t, platforms: {}, best_match: {platform:
null, confidence: 0.0}}`. -/
theorem claim8_disabled_platforms :
    (∀ (env : RemoteEnv) (enabled : List String) (t p : String), p ∉ enabled →
      (∀ r ∈ (searchTrack env enabled t).platforms, r.1 ≠ p) ∧
      (searchTrack env enabled t).best_match.1 ≠ some p) ∧
    (∀ (env : RemoteEnv) (t : String),
      searchTrack env [] t = ⟨t, [], (none, 0)⟩) := by
  constructor
  · intro env enabled t p hp
    have hkeys : ∀ r ∈ (searchTrack env enabled t).platforms, r.1 ≠ p := by
      intro r hr
      rw [searchTrack_platforms] at hr
      rcases List.mem_map.mp hr with ⟨a, ha, heq⟩
      have ha2 : a ∈ enabled := (List.mem_filter.mp ha).1
      intro hcontra
      rw [← heq] at hcontra
      simp only at hcontra
      rw [hcontra] at ha2
      exact hp ha2
    refine ⟨hkeys, fun hsel => ?_⟩
    rw [searchTrack_best] at hsel
    rcases findBestMatch_mem _ p hsel with ⟨r, hr, _⟩
    exact hkeys (p, r) hr rfl
  · intro env t
    rfl

/-- Claim C10: a Catalog response whose first record lacks a `uri` (or
supplies an empty one) yields `url = ""` (the empty string, not null),
`error = null`, confidence computed from the record, and the manager's
best-match scan never selects that platform. -/
theorem claim10_empty_uri (q : String) (rec : DiscogsRecord)
    (recs : List DiscogsRecord) (h : rec.uri.getD "" = "") :
    (discogsSearch q (.response 200 (.json (rec :: recs)))).url = some "" ∧
    (discogsSearch q (.response 200 (.json (rec :: recs)))).error = none ∧
    (discogsSearch q (.response 200 (.json (rec :: recs)))).confidence =
      discogsCalcConfidence q rec ∧
    ∀ (env : RemoteEnv) (enabled : List String) (t : String),
      env.discogs = .response 200 (.json (rec :: recs)) →
      (searchTrack env enabled t).best_match.1 ≠ some "discogs" := by
  have hurl : discogsBuildUrl (rec.uri.getD "") = "" := by rw [h]; rfl
  have hu : (discogsSearch q (.response 200 (.json (rec :: recs)))).url =
      some (discogsBuildUrl (rec.uri.getD "")) := rfl
  refine ⟨by rw [hu, hurl], rfl, rfl, ?_⟩
  intro env enabled t henv hsel
  rw [searchTrack_best] at hsel
  rcases findBestMatch_mem _ _ hsel with ⟨r, hr, htr⟩
  rw [searchTrack_platforms] at hr
  rcases List.mem_map.mp hr with ⟨a, _, heq⟩
  have ha : a = "discogs" := congrArg Prod.fst heq
  have hres : r = crawlerSearch env "discogs" t := by
    rw [← ha]; exact (congrArg Prod.snd heq).symm
  have hcs : crawlerSearch env "discogs" t = discogsSearch t env.discogs := by
    simp [crawlerSearch]
  have hru : r.url = some "" := by
    rw [hres, hcs, henv]
    have : (discogsSearch t (.response 200 (.json (rec :: recs)))).url =
        some (discogsBuildUrl (rec.uri.getD "")) := rfl
    rw [this, hurl]
  rw [hru] at htr
  simp [truthyUrl] at htr

/-- Claim C4: on an HTTP 403 (and likewise 429) the Storefront client's
`search` returns the constructed search URL (base endpoint plus the
URL-quoted cleaned query) with confidence exactly 0.6, a null error, and
a metadata note requiring manual search — not a failure result. -/
theorem claim4_storefront_degraded (q body : String) :
    (bandcampSearch q (.response 403 body)).url =
      some (bandcampSearchUrl (bandcampCleanQuery q)) ∧
    (bandcampSearch q (.response 403 body)).confidence = 6/10 ∧
    (bandcampSearch q (.response 403 body)).error = none ∧
    (bandcampSearch q (.response 403 body)).metadata.lookup "note" =
      some (.s "Manual search required - Bandcamp blocked automated requests") ∧
    (bandcampSearch q (.response 429 body)).url =
      some (bandcampSearchUrl (bandcampCleanQuery q)) ∧
    (bandcampSearch q (.response 429 body)).confidence = 6/10 ∧
    (bandcampSearch q (.response 429 body)).error = none ∧
    (bandcampSearch q (.response 429 body)).metadata.lookup "note" =
      some (.s "Manual search required - Bandcamp rate limited") := by
  exact ⟨rfl, rfl, rfl, rfl, rfl, rfl, rfl, rfl⟩

/-- Witness for C2: a concrete search where the maximum is positive, and
one where it is zero. -/
theorem claim2_witness :
    ((searchTrack ⟨.response 200 ytOneBlob, .netError "e", .netError "e"⟩
        ["youtube"] "t").best_match.1 =
      firstAttaining
        (maxTruthyConf (searchTrack ⟨.response 200 ytOneBlob, .netError "e",
          .netError "e"⟩ ["youtube"] "t").platforms)
        (searchTrack ⟨.response 200 ytOneBlob, .netError "e", .netError "e"⟩
          ["youtube"] "t").platforms) ∧
    (searchTrack ⟨.netError "e", .netError "e", .netError "e"⟩ [] "t").best_match
      = (none, 0) :=
  ⟨(claim2_best_match_amended ⟨.response 200 ytOneBlob, .netError "e", .netError "e"⟩
      ["youtube"] "t").2.1 (by
        rw [show maxTruthyConf (searchTrack ⟨.response 200 ytOneBlob, .netError "e",
          .netError "e"⟩ ["youtube"] "t").platforms = max (8/10) 0 from rfl]
        norm_num),
   (claim2_best_match_amended ⟨.netError "e", .netError "e", .netError "e"⟩
      [] "t").2.2 rfl⟩

/-- Witness for C8: `bandcamp` is not in the enabled list `["youtube"]`,
so it gets no `platforms` key and is never the best match. -/
theorem claim8_witness :
    ("bandcamp" ∉ (["youtube"] : List String)) ∧
    ((∀ r ∈ (searchTrack ⟨.netError "e", .netError "e", .netError "e"⟩
        ["youtube"] "t").platforms, r.1 ≠ "bandcamp") ∧
     (searchTrack ⟨.netError "e", .netError "e", .netError "e"⟩
        ["youtube"] "t").best_match.1 ≠ some "bandcamp") :=
  ⟨by decide,
   claim8_disabled_platforms.1 ⟨.netError "e", .netError "e", .netError "e"⟩
     ["youtube"] "t" "bandcamp" (by decide)⟩

/-- Witness for C10, at a record with no `uri` field. -/
theorem claim10_witness :
    (discogsSearch "q" (.response 200
      (.json [⟨some "xyz", none, none, none, none, none⟩]))).url = some "" ∧
    (searchTrack ⟨.netError "e", .response 200
        (.json [⟨some "xyz", none, none, none, none, none⟩]), .netError "e"⟩
      ["discogs"] "t").best_match.1 ≠ some "discogs" :=
  ⟨(claim10_empty_uri "q" ⟨some "xyz", none, none, none, none, none⟩ [] rfl).1,
   (claim10_empty_uri "t" ⟨some "xyz", none, none, none, none, none⟩ [] rfl).2.2.2
     ⟨.netError "e", .response 200
        (.json [⟨some "xyz", none, none, none, none, none⟩]), .netError "e"⟩
     ["discogs"] "t" rfl⟩

/-! ### Branch and scorer lemmas for the confidence invariant -/

theorem youtubeSearch_cases (q : String) (h : HttpResult String) :
    (youtubeSearch q h).url = none ∨ (youtubeSearch q h).confidence = 8/10 := by
  cases h with
  | netError e => exact Or.inl rfl
  | response s b =>
    by_cases hr : raisesForStatus s = true
    · left; simp [youtubeSearch, hr]
    · rcases hx : extractVideoUrls b with _ | ⟨u, rest⟩
      · left; simp [youtubeSearch, hr, hx]
      · right; simp [youtubeSearch, hr, hx]

theorem discogsSearch_cases (q : String) (h : HttpResult DiscogsBody) :
    (discogsSearch q h).url = none ∨
    ∃ rec, (discogsSearch q h).confidence = discogsCalcConfidence q rec := by
  cases h with
  | netError e => exact Or.inl rfl
  | response s b =>
    by_cases h1 : s = 401
    · left; simp [discogsSearch, h1]
    · by_cases h2 : s = 429
      · left; simp [discogsSearch, h1, h2]
      · by_cases h3 : raisesForStatus s = true
        · left; simp [discogsSearch, h1, h2, h3]
        · cases b with
          | malformed e => left; simp [discogsSearch, h1, h2, h3]
          | json results =>
            rcases results with _ | ⟨rec, recs⟩
            · left; simp [discogsSearch, h1, h2, h3]
            · right; exact ⟨rec, by simp [discogsSearch, h1, h2, h3]⟩

theorem bandcampSearch_cases (q : String) (h : HttpResult String) :
    (bandcampSearch q h).url = none ∨ (bandcampSearch q h).confidence = 6/10 ∨
    ∃ r, (bandcampSearch q h).confidence = bandcampCalcConfidence q r := by
  cases h with
  | netError e => exact Or.inl rfl
  | response s b =>
    by_cases h1 : s = 403
    · right; left; simp [bandcampSearch, h1]
    · by_cases h2 : s = 429
      · right; left; simp [bandcampSearch, h1, h2]
      · by_cases h3 : raisesForStatus s = true
        · left; simp [bandcampSearch, h1, h2, h3]
        · rcases hx : bandcampExtractResults b with _ | ⟨r, rest⟩
          · left; simp [bandcampSearch, h1, h2, h3, hx]
          · right; right
            exact ⟨r, by simp [bandcampSearch, h1, h2, h3, hx]⟩

theorem discogsCalc_nonneg (q : String) (rec : DiscogsRecord) :
    0 ≤ discogsCalcConfidence q rec := by
  simp only [discogsCalcConfidence]
  split
  · norm_num
  · split
    · refine le_min (by norm_num) ?_
      positivity
    · norm_num

theorem bandcampCalc_nonneg (q : String) (r : BcResult) :
    0 ≤ bandcampCalcConfidence q r := by
  simp only [bandcampCalcConfidence]
  split
  · norm_num
  · split
    · norm_num
    · split
      · refine le_min (by norm_num) ?_
        positivity
      · norm_num

theorem listUnion_ne_nil (l1 l2 : List (List Char))
    (h : l1 ≠ []) : l1.union l2 ≠ [] := by
  rcases l1 with _ | ⟨a, l1⟩
  · exact absurd rfl h
  · have : a ∈ (a :: l1).union l2 :=
      List.mem_union_iff.mpr (Or.inl (List.mem_cons_self _ _))
    exact List.ne_nil_of_mem this

theorem discogsCalc_eq_zero (q : String) (rec : DiscogsRecord)
    (h : discogsCalcConfidence q rec = 0) :
    ¬discogsContainMatch q rec ∧ discogsDisjointWords q rec := by
  simp only [discogsCalcConfidence] at h
  by_cases hc : lowerData q <:+: discogsTitleLower rec ∨
      discogsTitleLower rec <:+: lowerData q
  · rw [if_pos hc] at h
    norm_num at h
  · rw [if_neg hc] at h
    refine ⟨hc, ?_⟩
    by_cases hne : (!(wordSetOf (lowerData q)).isEmpty &&
        !(wordSetOf (discogsTitleLower rec)).isEmpty) = true
    · rw [if_pos hne] at h
      rcases Bool.and_eq_true_iff.mp hne with ⟨hq, ht⟩
      have hq2 : wordSetOf (lowerData q) ≠ [] := by
        simpa [List.isEmpty_iff] using hq
      have ht2 : wordSetOf (discogsTitleLower rec) ≠ [] := by
        simpa [List.isEmpty_iff] using ht
      refine ⟨hq2, ht2, ?_⟩
      rcases min_choice ((8 : ℚ)/10)
          ((((wordSetOf (lowerData q)).inter
              (wordSetOf (discogsTitleLower rec))).length : ℚ) /
            (((wordSetOf (lowerData q)).union
              (wordSetOf (discogsTitleLower rec))).length : ℚ)) with hm | hm
      · rw [hm] at h; norm_num at h
      · rw [hm] at h
        rcases div_eq_zero_iff.mp h with h0 | h0
        · have := Nat.cast_eq_zero.mp h0
          exact List.length_eq_zero.mp this
        · have h0n := Nat.cast_eq_zero.mp h0
          have := List.length_eq_zero.mp h0n
          exact ((listUnion_ne_nil _ (wordSetOf (discogsTitleLower rec)) hq2)
            this).elim
    · rw [if_neg hne] at h
      norm_num at h

theorem bandcampCalc_eq_zero (q : String) (r : BcResult)
    (h : bandcampCalcConfidence q r = 0) :
    ¬bandcampContainMatch q r ∧ bandcampDisjointWords q r := by
  simp only [bandcampCalcConfidence] at h
  by_cases hc1 : lowerData q <:+: bcTitleLower r ∨ bcTitleLower r <:+: lowerData q
  · rw [if_pos hc1] at h; norm_num at h
  · rw [if_neg hc1] at h
    by_cases hc2 : lowerData q <:+: bcArtistLower r ∨ bcArtistLower r <:+: lowerData q
    · rw [if_pos hc2] at h; norm_num at h
    · rw [if_neg hc2] at h
      have hcm : ¬bandcampContainMatch q r := by
        unfold bandcampContainMatch
        rintro (h1 | h2 | h3 | h4)
        · exact hc1 (Or.inl h1)
        · exact hc1 (Or.inr h2)
        · exact hc2 (Or.inl h3)
        · exact hc2 (Or.inr h4)
      refine ⟨hcm, ?_⟩
      by_cases hne : (!(wordSetOf (lowerData q)).isEmpty &&
          !((wordSetOf (bcTitleLower r)).union (wordSetOf (bcArtistLower r))).isEmpty)
            = true
      · rw [if_pos hne] at h
        rcases Bool.and_eq_true_iff.mp hne with ⟨hq, ht⟩
        have hq2 : wordSetOf (lowerData q) ≠ [] := by
          simpa [List.isEmpty_iff] using hq
        have ht2 : bandcampResultWords r ≠ [] := by
          unfold bandcampResultWords
          simpa [List.isEmpty_iff] using ht
        refine ⟨hq2, ht2, ?_⟩
        rcases min_choice ((7 : ℚ)/10)
            ((((wordSetOf (lowerData q)).inter
                ((wordSetOf (bcTitleLower r)).union (wordSetOf (bcArtistLower r)))).length : ℚ) /
              (((wordSetOf (lowerData q)).union
                ((wordSetOf (bcTitleLower r)).union (wordSetOf (bcArtistLower r)))).length : ℚ))
            with hm | hm
        · rw [hm] at h; norm_num at h
        · rw [hm] at h
          rcases div_eq_zero_iff.mp h with h0 | h0
          · have := Nat.cast_eq_zero.mp h0
            exact List.length_eq_zero.mp this
          · have h0n := Nat.cast_eq_zero.mp h0
            have := List.length_eq_zero.mp h0n
            exact ((listUnion_ne_nil _
              ((wordSetOf (bcTitleLower r)).union (wordSetOf (bcArtistLower r))) hq2)
              this).elim
      · rw [if_neg hne] at h
        norm_num at h

/-- Claim C1 (amended): for every client and branch, a non-null url comes
with a **non-negative** confidence; it is strictly positive on every
branch except when the word-overlap scorer is reached with disjoint,
non-empty word sets for query and candidate, where the confidence is
`min(cap, 0/total) = 0.0` (the Video client always scores 0.8; the
Storefront degraded-block branch yields exactly 0.6). -/
theorem claim1_url_confidence_amended :
    (∀ (q : String) (h : HttpResult String),
      (youtubeSearch q h).url ≠ none → 0 < (youtubeSearch q h).confidence) ∧
    (∀ (q : String) (h : HttpResult DiscogsBody),
      (discogsSearch q h).url ≠ none →
        0 ≤ (discogsSearch q h).confidence ∧
        ((discogsSearch q h).confidence = 0 →
          ∃ rec, (discogsSearch q h).confidence = discogsCalcConfidence q rec ∧
            discogsDisjointWords q rec)) ∧
    (∀ (q : String) (h : HttpResult String),
      (bandcampSearch q h).url ≠ none →
        0 ≤ (bandcampSearch q h).confidence ∧
        ((bandcampSearch q h).confidence = 0 →
          ∃ r, (bandcampSearch q h).confidence = bandcampCalcConfidence q r ∧
            bandcampDisjointWords q r)) ∧
    (∀ (q body : String),
      (bandcampSearch q (.response 403 body)).confidence = 6/10 ∧
      (bandcampSearch q (.response 429 body)).confidence = 6/10) := by
  refine ⟨?_, ?_, ?_, ?_⟩
  · intro q h hu
    rcases youtubeSearch_cases q h with h0 | h8
    · exact absurd h0 hu
    · rw [h8]; norm_num
  · intro q h hu
    rcases discogsSearch_cases q h with h0 | ⟨rec, hconf⟩
    · exact absurd h0 hu
    · refine ⟨by rw [hconf]; exact discogsCalc_nonneg q rec, fun hz => ?_⟩
      refine ⟨rec, hconf, ?_⟩
      rw [hconf] at hz
      exact (discogsCalc_eq_zero q rec hz).2
  · intro q h hu
    rcases bandcampSearch_cases q h with h0 | h6 | ⟨r, hconf⟩
    · exact absurd h0 hu
    · refine ⟨by rw [h6]; norm_num, fun hz => ?_⟩
      rw [h6] at hz; norm_num at hz
    · refine ⟨by rw [hconf]; exact bandcampCalc_nonneg q r, fun hz => ?_⟩
      refine ⟨r, hconf, ?_⟩
      rw [hconf] at hz
      exact (bandcampCalc_eq_zero q r hz).2
  · intro q body
    exact ⟨rfl, rfl⟩

/-- Counterexample for C1 as stated: a Catalog response whose first record
has title `"xyz"` against query `"abc"` (disjoint, non-empty word sets)
yields a non-null url with confidence exactly 0.0. -/
theorem claim1_counterexample :
    (discogsSearch "abc" (.response 200 (.json
      [⟨some "xyz", some "/releases/1", none, none, none, none⟩]))).url =
        some "https://www.discogs.com/releases/1" ∧
    (discogsSearch "abc" (.response 200 (.json
      [⟨some "xyz", some "/releases/1", none, none, none, none⟩]))).confidence
        = 0 ∧
    ¬(0 : ℚ) > 0 := by
  refine ⟨rfl, ?_, by norm_num⟩
  rw [show (discogsSearch "abc" (.response 200 (.json
      [⟨some "xyz", some "/releases/1", none, none, none, none⟩]))).confidence =
    min ((8 : ℚ)/10) ((((0 : ℕ) : ℚ)) / (((2 : ℕ) : ℚ))) from rfl]
  norm_num

/-- Witness for C1 (amended), discharging each hypothesis at concrete
inputs: a Video search with a result, a Catalog search reaching the
zero-overlap branch, and a Storefront degraded-block search. -/
theorem claim1_witness :
    0 < (youtubeSearch "t" (.response 200 ytOneBlob)).confidence ∧
    (∃ rec, (discogsSearch "abc" (.response 200 (.json
        [⟨some "xyz", some "/releases/1", none, none, none, none⟩]))).confidence
          = discogsCalcConfidence "abc" rec ∧
      discogsDisjointWords "abc" rec) ∧
    0 ≤ (bandcampSearch "q" (.response 403 "body")).confidence :=
  ⟨claim1_url_confidence_amended.1 "t" (.response 200 ytOneBlob)
    (by rw [show (youtubeSearch "t" (.response 200 ytOneBlob)).url =
        some "https://www.youtube.com/watch?v=AAAAAAAAAA1" from rfl]
        exact Option.some_ne_none _),
   (claim1_url_confidence_amended.2.1 "abc" (.response 200 (.json
      [⟨some "xyz", some "/releases/1", none, none, none, none⟩]))
    (by rw [show (discogsSearch "abc" (.response 200 (.json
        [⟨some "xyz", some "/releases/1", none, none, none, none⟩]))).url =
        some "https://www.discogs.com/releases/1" from rfl]
        exact Option.some_ne_none _)).2
    (by rw [show (discogsSearch "abc" (.response 200 (.json
        [⟨some "xyz", some "/releases/1", none, none, none, none⟩]))).confidence =
        min ((8 : ℚ)/10) ((((0 : ℕ) : ℚ)) / (((2 : ℕ) : ℚ))) from rfl]
        norm_num),
   (claim1_url_confidence_amended.2.2.1 "q" (.response 403 "body")
    (by rw [show (bandcampSearch "q" (.response 403 "body")).url =
        some (bandcampSearchUrl (bandcampCleanQuery "q")) from rfl]
        exact Option.some_ne_none _)).1⟩

/-- Claim C6 (amended): the flat default 0.5 is returned only when, after
the containment checks fail, the query's or the candidate's word set is
**empty**; when both word sets are non-empty but disjoint the scorer
returns `min(cap, 0/total) = 0.0`, not 0.5 — for both the Catalog and
Storefront scorers. -/
theorem claim6_no_overlap_amended :
    (∀ (q : String) (rec : DiscogsRecord),
      ¬discogsContainMatch q rec → discogsDisjointWords q rec →
        discogsCalcConfidence q rec = 0) ∧
    (∀ (q : String) (rec : DiscogsRecord),
      ¬discogsContainMatch q rec →
      (wordSetOf (lowerData q) = [] ∨ wordSetOf (discogsTitleLower rec) = []) →
        discogsCalcConfidence q rec = 1/2) ∧
    (∀ (q : String) (r : BcResult),
      ¬bandcampContainMatch q r → bandcampDisjointWords q r →
        bandcampCalcConfidence q r = 0) ∧
    (∀ (q : String) (r : BcResult),
      ¬bandcampContainMatch q r →
      (wordSetOf (lowerData q) = [] ∨ bandcampResultWords r = []) →
        bandcampCalcConfidence q r = 1/2) := by
  refine ⟨?_, ?_, ?_, ?_⟩
  · intro q rec hc ⟨hq, ht, hint⟩
    have hc1 : ¬(lowerData q <:+: discogsTitleLower rec ∨
        discogsTitleLower rec <:+: lowerData q) := hc
    simp only [discogsCalcConfidence]
    rw [if_neg hc1]
    have hne : (!(wordSetOf (lowerData q)).isEmpty &&
        !(wordSetOf (discogsTitleLower rec)).isEmpty) = true := by
      simp [List.isEmpty_iff, hq, ht]
    rw [if_pos hne, hint]
    simp only [List.length_nil, Nat.cast_zero, zero_div]
    exact min_eq_right (by norm_num)
  · intro q rec hc hemp
    have hc1 : ¬(lowerData q <:+: discogsTitleLower rec ∨
        discogsTitleLower rec <:+: lowerData q) := hc
    simp only [discogsCalcConfidence]
    rw [if_neg hc1]
    have hne : (!(wordSetOf (lowerData q)).isEmpty &&
        !(wordSetOf (discogsTitleLower rec)).isEmpty) = false := by
      rcases hemp with h | h <;> simp [List.isEmpty_iff, h]
    rw [if_neg (by simp [hne])]
  · intro q r hc ⟨hq, ht, hint⟩
    have hc1 : ¬(lowerData q <:+: bcTitleLower r ∨
        bcTitleLower r <:+: lowerData q) := fun h => hc (by
      unfold bandcampContainMatch
      rcases h with h | h
      · exact Or.inl h
      · exact Or.inr (Or.inl h))
    have hc2 : ¬(lowerData q <:+: bcArtistLower r ∨
        bcArtistLower r <:+: lowerData q) := fun h => hc (by
      unfold bandcampContainMatch
      rcases h with h | h
      · exact Or.inr (Or.inr (Or.inl h))
      · exact Or.inr (Or.inr (Or.inr h)))
    simp only [bandcampCalcConfidence]
    rw [if_neg hc1, if_neg hc2]
    have ht2 : ((wordSetOf (bcTitleLower r)).union
        (wordSetOf (bcArtistLower r))) ≠ [] := ht
    have hne : (!(wordSetOf (lowerData q)).isEmpty &&
        !((wordSetOf (bcTitleLower r)).union (wordSetOf (bcArtistLower r))).isEmpty)
          = true := by
      simp [List.isEmpty_iff, hq, ht2]
    rw [if_pos hne]
    have hint2 : (wordSetOf (lowerData q)).inter
        ((wordSetOf (bcTitleLower r)).union (wordSetOf (bcArtistLower r))) = [] :=
      hint
    rw [hint2]
    simp only [List.length_nil, Nat.cast_zero, zero_div]
    exact min_eq_right (by norm_num)
  · intro q r hc hemp
    have hc1 : ¬(lowerData q <:+: bcTitleLower r ∨
        bcTitleLower r <:+: lowerData q) := fun h => hc (by
      unfold bandcampContainMatch
      rcases h with h | h
      · exact Or.inl h
      · exact Or.inr (Or.inl h))
    have hc2 : ¬(lowerData q <:+: bcArtistLower r ∨
        bcArtistLower r <:+: lowerData q) := fun h => hc (by
      unfold bandcampContainMatch
      rcases h with h | h
      · exact Or.inr (Or.inr (Or.inl h))
      · exact Or.inr (Or.inr (Or.inr h)))
    simp only [bandcampCalcConfidence]
    rw [if_neg hc1, if_neg hc2]
    have hne : (!(wordSetOf (lowerData q)).isEmpty &&
        !((wordSetOf (bcTitleLower r)).union (wordSetOf (bcArtistLower r))).isEmpty)
          = false := by
      rcases hemp with h | h
      · simp [List.isEmpty_iff, h]
      · have h2 : ((wordSetOf (bcTitleLower r)).union
            (wordSetOf (bcArtistLower r))) = [] := h
        simp [List.isEmpty_iff, h2]
    rw [if_neg (by simp [hne])]

/-- Counterexample for C6 as stated: with disjoint non-empty word sets
(query `"abc"`, candidate title `"xyz"`, Storefront artist `"qqq"`) both
scorers return 0.0, not the claimed flat default 0.5. -/
theorem claim6_counterexample :
    discogsCalcConfidence "abc" ⟨some "xyz", none, none, none, none, none⟩ = 0 ∧
    bandcampCalcConfidence "abc" ⟨"", "xyz", "qqq", ""⟩ = 0 ∧
    (0 : ℚ) ≠ 1/2 := by
  refine ⟨?_, ?_, by norm_num⟩
  · rw [show discogsCalcConfidence "abc" ⟨some "xyz", none, none, none, none, none⟩ =
      min ((8 : ℚ)/10) ((((0 : ℕ) : ℚ)) / (((2 : ℕ) : ℚ))) from rfl]
    norm_num
  · rw [show bandcampCalcConfidence "abc" ⟨"", "xyz", "qqq", ""⟩ =
      min ((7 : ℚ)/10) ((((0 : ℕ) : ℚ)) / (((3 : ℕ) : ℚ))) from rfl]
    norm_num

/-- Witness for C6 (amended): each branch at a concrete query/candidate. -/
theorem claim6_witness :
    discogsCalcConfidence "abc" ⟨some "xyz", none, none, none, none, none⟩ = 0 ∧
    discogsCalcConfidence "abc" ⟨some "!!!", none, none, none, none, none⟩ = 1/2 ∧
    bandcampCalcConfidence "abc" ⟨"", "xyz", "qqq", ""⟩ = 0 ∧
    bandcampCalcConfidence "abc" ⟨"", "!!!", "???", ""⟩ = 1/2 :=
  ⟨claim6_no_overlap_amended.1 "abc" ⟨some "xyz", none, none, none, none, none⟩
     (by unfold discogsContainMatch; decide)
     (by unfold discogsDisjointWords; decide),
   claim6_no_overlap_amended.2.1 "abc" ⟨some "!!!", none, none, none, none, none⟩
     (by unfold discogsContainMatch; decide)
     (by right; decide),
   claim6_no_overlap_amended.2.2.1 "abc" ⟨"", "xyz", "qqq", ""⟩
     (by unfold bandcampContainMatch; decide)
     (by unfold bandcampDisjointWords bandcampResultWords; decide),
   claim6_no_overlap_amended.2.2.2 "abc" ⟨"", "!!!", "???", ""⟩
     (by unfold bandcampContainMatch; decide)
     (by right; unfold bandcampResultWords; decide)⟩

theorem startsWith_http_clash (u : String) (h : pyStartsWith u "http" = true) :
    pyStartsWith u "/releases/" = false ∧ pyStartsWith u "/masters/" = false := by
  have hh : "http".data = ['h', 't', 't', 'p'] := rfl
  have hr : "/releases/".data = ['/', 'r', 'e', 'l', 'e', 'a', 's', 'e', 's', '/'] := rfl
  have hm : "/masters/".data = ['/', 'm', 'a', 's', 't', 'e', 'r', 's', '/'] := rfl
  unfold pyStartsWith at h ⊢
  rw [hh] at h
  rw [hr, hm]
  rcases hd : u.data with _ | ⟨c, cs⟩
  · rw [hd] at h
    simp [List.isPrefixOf] at h
  · rw [hd] at h
    simp only [List.isPrefixOf, Bool.and_eq_true, beq_iff_eq] at h
    obtain ⟨hc, _⟩ := h
    constructor <;> simp [List.isPrefixOf, ← hc]

/-- Counterexample for C9 as stated: the uri `"/artist/123"` begins with
no recognized path prefix, yet the client prefixes the canonical host
rather than leaving it as returned. -/
theorem claim9_counterexample :
    (discogsSearch "q" (.response 200 (.json
      [⟨some "t", some "/artist/123", none, none, none, none⟩]))).url =
        some "https://www.discogs.com/artist/123" ∧
    pyStartsWith "/artist/123" "/releases/" = false ∧
    pyStartsWith "/artist/123" "/masters/" = false ∧
    "https://www.discogs.com/artist/123" ≠ "/artist/123" :=
  ⟨rfl, rfl, rfl, by decide⟩

/-- Claim C9 (amended): the first record's uri is prefixed with the
canonical host when it begins with `/releases/` or `/masters/`, and
likewise whenever it is non-empty and does not begin with `http`; it is
left as returned exactly when it is empty or begins with `http`. -/
theorem claim9_uri_normalization_amended :
    (∀ u : String, pyStartsWith u "http" = false → u ≠ "" →
      discogsBuildUrl u = "https://www.discogs.com" ++ u) ∧
    (∀ u : String, pyStartsWith u "http" = true → discogsBuildUrl u = u) ∧
    discogsBuildUrl "" = "" ∧
    (∀ (q : String) (rec : DiscogsRecord) (recs : List DiscogsRecord),
      (discogsSearch q (.response 200 (.json (rec :: recs)))).url =
        some (discogsBuildUrl (rec.uri.getD ""))) := by
  refine ⟨?_, ?_, rfl, ?_⟩
  · intro u h3 hne
    unfold discogsBuildUrl
    rw [if_pos hne]
    by_cases h1 : pyStartsWith u "/releases/" = true
    · rw [if_pos h1]
    · rw [if_neg h1]
      by_cases h2 : pyStartsWith u "/masters/" = true
      · rw [if_pos h2]
      · rw [if_neg h2]
        rw [if_pos (show (!pyStartsWith u "http") = true by rw [h3]; rfl)]
  · intro u h3
    obtain ⟨h1, h2⟩ := startsWith_http_clash u h3
    unfold discogsBuildUrl
    by_cases hne : u ≠ ""
    · rw [if_pos hne, if_neg (by simp [h1]), if_neg (by simp [h2]),
        if_neg (by simp [h3])]
    · rw [if_neg hne]
  · intro q rec recs
    rfl

/-- Witness for C9 (amended) at concrete uris. -/
theorem claim9_witness :
    discogsBuildUrl "/artist/123" = "https://www.discogs.com" ++ "/artist/123" ∧
    discogsBuildUrl "http://x" = "http://x" :=
  ⟨claim9_uri_normalization_amended.1 "/artist/123" rfl (by decide),
   claim9_uri_normalization_amended.2.1 "http://x" rfl⟩

/-- Counterexample for C5 as stated: no client validates emptiness — with
the empty query and a response carrying an identifier, the Video client
returns a non-null url with confidence 0.8 and a null error, not the
claimed `url=null, confidence=0.0, error≠null`. -/
theorem claim5_counterexample :
    isWsOnly "" = true ∧
    (youtubeSearch "" (.response 200 ytOneBlob)).url =
      some "https://www.youtube.com/watch?v=AAAAAAAAAA1" ∧
    (youtubeSearch "" (.response 200 ytOneBlob)).confidence = 8/10 ∧
    (youtubeSearch "" (.response 200 ytOneBlob)).error = none :=
  ⟨rfl, rfl, rfl, rfl⟩

/-- Claim C5 (amended): the clients have no empty-query short-circuit;
for an empty or whitespace-only query the result is still determined by
the remote response exactly as for any query — a response with no
candidates yields `{url: null, confidence: 0.0, error: "No results
found"}`, while a response with candidates yields a non-null url. -/
theorem claim5_empty_query_amended (q : String) (_hq : isWsOnly q = true) :
    youtubeSearch q (.response 200 "") =
      ⟨none, 0, [("search_query", .s (youtubeCleanQuery q))],
        some "No results found"⟩ ∧
    discogsSearch q (.response 200 (.json [])) =
      ⟨none, 0, [("search_query", .s (discogsCleanQuery q))],
        some "No results found"⟩ ∧
    bandcampSearch q (.response 200 "") =
      ⟨none, 0, [("search_query", .s (bandcampCleanQuery q))],
        some "No results found"⟩ ∧
    (youtubeSearch "" (.response 200 ytOneBlob)).url ≠ none :=
  ⟨rfl, rfl, rfl, by
    rw [show (youtubeSearch "" (.response 200 ytOneBlob)).url =
      some "https://www.youtube.com/watch?v=AAAAAAAAAA1" from rfl]
    exact Option.some_ne_none _⟩

/-- Witness for C5 (amended) at the whitespace-only query `" "`. -/
theorem claim5_witness :
    isWsOnly " " = true ∧
    youtubeSearch " " (.response 200 "") =
      ⟨none, 0, [("search_query", .s (youtubeCleanQuery " "))],
        some "No results found"⟩ :=
  ⟨rfl, (claim5_empty_query_amended " " rfl).1⟩

/-- Claim C3: every failure mode — network exception, HTTP error status
(401/429 handled specifically by the Catalog client), malformed body,
empty result set — is absorbed into a `PlatformResult` with `url=null`,
`confidence=0.0` and a non-null descriptive `error`; totality of these
Lean functions models that `search` never propagates an exception.  (The
Storefront 403/429 branch is deliberately not a failure; see C4.) -/
theorem claim3_error_conversion :
    (∀ q e : String, youtubeSearch q (.netError e) =
      ⟨none, 0, [("search_query", .s q)], some e⟩) ∧
    (∀ (q : String) (s : Nat) (b : String), raisesForStatus s = true →
      youtubeSearch q (.response s b) =
        ⟨none, 0, [("search_query", .s q)], some (httpErrorMsg s)⟩) ∧
    (∀ (q : String) (s : Nat) (b : String), raisesForStatus s = false →
      extractVideoUrls b = [] →
      youtubeSearch q (.response s b) =
        ⟨none, 0, [("search_query", .s (youtubeCleanQuery q))],
          some "No results found"⟩) ∧
    (∀ q e : String, discogsSearch q (.netError e) =
      ⟨none, 0, [("search_query", .s q)], some e⟩) ∧
    (∀ (q : String) (b : DiscogsBody), discogsSearch q (.response 401 b) =
      ⟨none, 0, [("search_query", .s (discogsCleanQuery q)),
        ("full_url", .s (discogsFullUrl (discogsCleanQuery q)))],
        some "Unauthorized - need Discogs token"⟩) ∧
    (∀ (q : String) (b : DiscogsBody), discogsSearch q (.response 429 b) =
      ⟨none, 0, [("search_query", .s (discogsCleanQuery q)),
        ("full_url", .s (discogsFullUrl (discogsCleanQuery q)))],
        some "Rate limited - try again later"⟩) ∧
    (∀ (q : String) (s : Nat) (b : DiscogsBody), s ≠ 401 → s ≠ 429 →
      raisesForStatus s = true →
      discogsSearch q (.response s b) =
        ⟨none, 0, [("search_query", .s q)], some (httpErrorMsg s)⟩) ∧
    (∀ (q : String) (s : Nat) (e : String), s ≠ 401 → s ≠ 429 →
      raisesForStatus s = false →
      discogsSearch q (.response s (.malformed e)) =
        ⟨none, 0, [("search_query", .s q)], some e⟩) ∧
    (∀ (q : String) (s : Nat), s ≠ 401 → s ≠ 429 →
      raisesForStatus s = false →
      discogsSearch q (.response s (.json [])) =
        ⟨none, 0, [("search_query", .s (discogsCleanQuery q))],
          some "No results found"⟩) ∧
    (∀ q e : String, bandcampSearch q (.netError e) =
      ⟨none, 0, [("search_query", .s q)], some e⟩) ∧
    (∀ (q : String) (s : Nat) (b : String), s ≠ 403 → s ≠ 429 →
      raisesForStatus s = true →
      bandcampSearch q (.response s b) =
        ⟨none, 0, [("search_query", .s q)], some (httpErrorMsg s)⟩) ∧
    (∀ (q : String) (s : Nat) (b : String), s ≠ 403 → s ≠ 429 →
      raisesForStatus s = false → bandcampExtractResults b = [] →
      bandcampSearch q (.response s b) =
        ⟨none, 0, [("search_query", .s (bandcampCleanQuery q))],
          some "No results found"⟩) := by
  refine ⟨fun q e => rfl, ?_, ?_, fun q e => rfl, fun q b => rfl, fun q b => rfl,
    ?_, ?_, ?_, fun q e => rfl, ?_, ?_⟩
  · intro q s b hr
    simp [youtubeSearch, hr]
  · intro q s b hr hx
    simp [youtubeSearch, hr, hx]
  · intro q s b h1 h2 hr
    simp [discogsSearch, h1, h2, hr]
  · intro q s e h1 h2 hr
    simp [discogsSearch, h1, h2, hr]
  · intro q s h1 h2 hr
    simp [discogsSearch, h1, h2, hr]
  · intro q s b h1 h2 hr
    simp [bandcampSearch, h1, h2, hr]
  · intro q s b h1 h2 hr hx
    simp [bandcampSearch, h1, h2, hr, hx]

/-- Witness for C3, discharging each hypothesis at concrete statuses and
bodies: 500 raises, 418 raises, 200 with an empty/malformed body. -/
theorem claim3_witness :
    youtubeSearch "a" (.response 500 "") =
      ⟨none, 0, [("search_query", .s "a")], some (httpErrorMsg 500)⟩ ∧
    youtubeSearch "a" (.response 200 "") =
      ⟨none, 0, [("search_query", .s (youtubeCleanQuery "a"))],
        some "No results found"⟩ ∧
    discogsSearch "a" (.response 500 (.json [])) =
      ⟨none, 0, [("search_query", .s "a")], some (httpErrorMsg 500)⟩ ∧
    discogsSearch "a" (.response 200 (.malformed "Expecting value")) =
      ⟨none, 0, [("search_query", .s "a")], some "Expecting value"⟩ ∧
    discogsSearch "a" (.response 200 (.json [])) =
      ⟨none, 0, [("search_query", .s (discogsCleanQuery "a"))],
        some "No results found"⟩ ∧
    bandcampSearch "a" (.response 500 "") =
      ⟨none, 0, [("search_query", .s "a")], some (httpErrorMsg 500)⟩ ∧
    bandcampSearch "a" (.response 200 "") =
      ⟨none, 0, [("search_query", .s (bandcampCleanQuery "a"))],
        some "No results found"⟩ :=
  ⟨claim3_error_conversion.2.1 "a" 500 "" rfl,
   claim3_error_conversion.2.2.1 "a" 200 "" rfl rfl,
   claim3_error_conversion.2.2.2.2.2.2.1 "a" 500 (.json []) (by decide) (by decide) rfl,
   claim3_error_conversion.2.2.2.2.2.2.2.1 "a" 200 "Expecting value"
     (by decide) (by decide) rfl,
   claim3_error_conversion.2.2.2.2.2.2.2.2.1 "a" 200 (by decide) (by decide) rfl,
   claim3_error_conversion.2.2.2.2.2.2.2.2.2.2.1 "a" 500 "" (by decide) (by decide) rfl,
   claim3_error_conversion.2.2.2.2.2.2.2.2.2.2.2 "a" 200 "" (by decide) (by decide)
     rfl rfl⟩

/-- Counterexample for C2 as stated: a `search_track` call whose Catalog
result has the non-null url `""` with confidence 0.9 (query `"t"`
contained in title `"t"`, record without a uri).  The claim demands
`best_match = ("discogs", 0.9)`; the code's truthiness test skips the
empty-string url and returns `{platform: null, confidence: 0.0}`. -/
theorem claim2_counterexample :
    ((searchTrack ⟨.netError "e", .response 200
        (.json [⟨some "t", none, none, none, none, none⟩]), .netError "e"⟩
      ["discogs"] "t").platforms.map
        (fun pr => (pr.1, pr.2.url, pr.2.confidence))) =
      [("discogs", some "", 9/10)] ∧
    (searchTrack ⟨.netError "e", .response 200
        (.json [⟨some "t", none, none, none, none, none⟩]), .netError "e"⟩
      ["discogs"] "t").best_match = (none, 0) ∧
    (9 : ℚ)/10 ≠ 0 :=
  ⟨rfl, rfl, by norm_num⟩

/-! ### Lemmas for the Video extraction (C7) -/

theorem matchIdCore_prop (s vid rest : List Char)
    (h : matchIdCore s = some (vid, rest)) :
    vid.all isIdChar = true ∧ vid.length = 11 := by
  unfold matchIdCore at h
  rcases htl : takeLit ("\"videoId\":\"".data) s with _ | s1
  · rw [htl] at h; cases h
  · rw [htl] at h
    simp only [Option.some_bind] at h
    split at h
    case isTrue hc =>
      rcases Bool.and_eq_true_iff.mp hc with ⟨hlen, hall⟩
      split at h
      case h_1 c rest2 heq =>
        split at h
        case isTrue hq =>
          have hpair := Option.some.inj h
          have hv : vid = s1.take 11 := (Prod.mk.injEq _ _ _ _ ▸ hpair).1.symm
          rw [hv]
          exact ⟨hall, of_decide_eq_true hlen⟩
        case isFalse hq => cases h
      case h_2 heq => cases h
    case isFalse hc => cases h

theorem lastIdCore_prop (s : List Char) :
    ∀ vid rest, lastIdCore s = some (vid, rest) →
      vid.all isIdChar = true ∧ vid.length = 11 := by
  induction s with
  | nil => intro vid rest h; cases h
  | cons c cs ih =>
    intro vid rest h
    unfold lastIdCore at h
    by_cases hb : c = Char.ofNat 125
    · rw [if_pos hb] at h; cases h
    · rw [if_neg hb] at h
      rcases hrec : lastIdCore cs with _ | r
      · rw [hrec] at h
        exact matchIdCore_prop _ _ _ h
      · rw [hrec] at h
        cases h
        exact ih _ _ hrec

theorem matchRender_prop (lead s : List Char) (vid rest : List Char)
    (h : matchRender lead s = some (vid, rest)) :
    vid.all isIdChar = true ∧ vid.length = 11 := by
  unfold matchRender at h
  rcases htl : takeLit lead s with _ | s1
  · rw [htl] at h; cases h
  · rw [htl] at h
    simp only [Option.some_bind] at h
    split at h
    case h_1 c s2 heq =>
      split at h
      case isTrue hb => exact lastIdCore_prop _ _ _ h
      case isFalse hb => cases h
    case h_2 heq => cases h

theorem matchWatchEndpoint_prop (s : List Char) (vid rest : List Char)
    (h : matchWatchEndpoint s = some (vid, rest)) :
    vid.all isIdChar = true ∧ vid.length = 11 := by
  unfold matchWatchEndpoint at h
  rcases htl : takeLit ("\"watchEndpoint\":".data) s with _ | s1
  · rw [htl] at h; cases h
  · rw [htl] at h
    simp only [Option.some_bind] at h
    split at h
    case h_1 c s2 heq =>
      split at h
      case isTrue hb => exact matchIdCore_prop _ _ _ h
      case isFalse hb => cases h
    case h_2 heq => cases h

theorem scanAllGo_prop (M : List Char → Option (List Char × List Char))
    (P : List Char → Prop)
    (hM : ∀ s vid rest, M s = some (vid, rest) → P vid) :
    ∀ (fuel : Nat) (s : List Char), ∀ vid ∈ scanAllGo M fuel s, P vid := by
  intro fuel
  induction fuel with
  | zero => intro s vid h; cases h
  | succ fuel ih =>
    intro s vid h
    rcases s with _ | ⟨c, cs⟩
    · cases h
    · rcases hm : M (c :: cs) with _ | ⟨v, rest⟩
      · simp only [scanAllGo, hm] at h
        exact ih cs vid h
      · simp only [scanAllGo, hm] at h
        by_cases hlt : rest.length < (c :: cs).length
        · rw [if_pos hlt] at h
          rcases List.mem_cons.mp h with hv | hv
          · rw [hv]; exact hM _ _ _ hm
          · exact ih rest vid hv
        · rw [if_neg hlt] at h
          rcases List.mem_singleton.mp h with hv
          rw [hv]; exact hM _ _ _ hm

theorem ytFirstPatternMatches_prop (body : List Char) :
    ∀ vid ∈ ytFirstPatternMatches body, vid.all isIdChar = true := by
  have hP : ∀ (M : List Char → Option (List Char × List Char)),
      (∀ s vi r, M s = some (vi, r) → vi.all isIdChar = true ∧ vi.length = 11) →
      ∀ v ∈ scanAllGo M (body.length + 1) body, v.all isIdChar = true := by
    intro M hM v hv
    exact (scanAllGo_prop M (fun vi => vi.all isIdChar = true ∧ vi.length = 11)
      hM (body.length + 1) body v hv).1
  intro vid h
  unfold ytFirstPatternMatches ytFindAll1 ytFindAll2 ytFindAll3 ytFindAll4
    scanAll at h
  split at h
  · exact hP _ (fun s vi r hm => matchRender_prop _ s vi r hm) vid h
  · split at h
    · exact hP _ (fun s vi r hm => matchRender_prop _ s vi r hm) vid h
    · split at h
      · exact hP _ (fun s vi r hm => matchWatchEndpoint_prop s vi r hm) vid h
      · exact hP _ (fun s vi r hm => matchIdCore_prop s vi r hm) vid h

theorem ytCollect_eq_dedupTake :
    ∀ (ms found : List (List Char)),
      ytCollect ms found (found.map ytWatchUrl) =
        (dedupTake found ms, (dedupTake found ms).map ytWatchUrl) := by
  intro ms
  induction ms with
  | nil => intro found; rfl
  | cons m rest ih =>
    intro found
    unfold ytCollect dedupTake
    by_cases hmem : m ∈ found
    · rw [if_pos hmem, if_pos hmem]
      exact ih found
    · rw [if_neg hmem, if_neg hmem]
      have hmap : found.map ytWatchUrl ++ [ytWatchUrl m] =
          (found ++ [m]).map ytWatchUrl := by
        rw [List.map_append]; rfl
      have hlen : (found.map ytWatchUrl ++ [ytWatchUrl m]).length =
          (found ++ [m]).length := by
        rw [hmap, List.length_map]
      rw [hmap]
      by_cases h5 : 5 ≤ (found ++ [m]).length
      · rw [if_pos (by rw [List.length_map]; exact h5), if_pos h5]
      · rw [if_neg (by rw [List.length_map]; exact h5), if_neg h5]
        exact ih (found ++ [m])

theorem dedupFrom_prefix :
    ∀ (ms found : List (List Char)), ∃ r, dedupFrom found ms = found ++ r := by
  intro ms
  induction ms with
  | nil => intro found; exact ⟨[], (List.append_nil found).symm⟩
  | cons m rest ih =>
    intro found
    unfold dedupFrom
    rw [List.foldl_cons]
    by_cases hmem : m ∈ found
    · rw [if_pos hmem]
      exact ih found
    · rw [if_neg hmem]
      rcases ih (found ++ [m]) with ⟨r, hr⟩
      exact ⟨[m] ++ r, by rw [← List.append_assoc]; exact hr⟩

theorem dedupTake_eq_take :
    ∀ (ms found : List (List Char)), found.length < 5 →
      dedupTake found ms = (dedupFrom found ms).take 5 := by
  intro ms
  induction ms with
  | nil =>
    intro found h5
    unfold dedupTake dedupFrom
    rw [List.foldl_nil, List.take_of_length_le (le_of_lt h5)]
  | cons m rest ih =>
    intro found h5
    unfold dedupTake dedupFrom
    rw [List.foldl_cons]
    by_cases hmem : m ∈ found
    · rw [if_pos hmem, if_pos hmem]
      exact ih found h5
    · rw [if_neg hmem, if_neg hmem]
      by_cases hc5 : 5 ≤ (found ++ [m]).length
      · rw [if_pos hc5]
        have hlen : (found ++ [m]).length = 5 := by
          simp only [List.length_append, List.length_singleton] at hc5 ⊢
          omega
        rcases dedupFrom_prefix rest (found ++ [m]) with ⟨r, hr⟩
        rw [show rest.foldl (fun acc m2 => if m2 ∈ acc then acc else acc ++ [m2])
            (found ++ [m]) = dedupFrom (found ++ [m]) rest from rfl, hr,
          List.take_append_eq_append_take, hlen, Nat.sub_self, List.take_zero,
          List.append_nil, List.take_of_length_le (le_of_eq hlen)]
      · rw [if_neg hc5]
        have : (found ++ [m]).length < 5 := lt_of_not_le hc5
        exact ih (found ++ [m]) this

theorem dedupFrom_nodup :
    ∀ (ms found : List (List Char)), found.Nodup → (dedupFrom found ms).Nodup := by
  intro ms
  induction ms with
  | nil => intro found h; exact h
  | cons m rest ih =>
    intro found h
    unfold dedupFrom
    rw [List.foldl_cons]
    by_cases hmem : m ∈ found
    · rw [if_pos hmem]; exact ih found h
    · rw [if_neg hmem]
      refine ih (found ++ [m]) ?_
      rw [List.nodup_append]
      exact ⟨h, List.nodup_singleton m, by
        intro x hx hm2
        rw [List.mem_singleton.mp hm2] at hx
        exact hmem hx⟩

theorem dedupFrom_mem :
    ∀ (ms found : List (List Char)) (x : List Char),
      x ∈ dedupFrom found ms → x ∈ found ∨ x ∈ ms := by
  intro ms
  induction ms with
  | nil => intro found x h; exact Or.inl h
  | cons m rest ih =>
    intro found x h
    unfold dedupFrom at h
    rw [List.foldl_cons] at h
    by_cases hmem : m ∈ found
    · rw [if_pos hmem] at h
      rcases ih found x h with h2 | h2
      · exact Or.inl h2
      · exact Or.inr (List.mem_cons_of_mem _ h2)
    · rw [if_neg hmem] at h
      rcases ih (found ++ [m]) x h with h2 | h2
      · rcases List.mem_append.mp h2 with h3 | h3
        · exact Or.inl h3
        · exact Or.inr (by rw [List.mem_singleton.mp h3]; exact List.mem_cons_self _ _)
      · exact Or.inr (List.mem_cons_of_mem _ h2)

theorem dedupTake_ne_nil (m : List Char) (ms : List (List Char)) :
    dedupTake [] (m :: ms) ≠ [] := by
  unfold dedupTake
  rw [if_neg (List.not_mem_nil m)]
  by_cases h5 : 5 ≤ ([] ++ [m] : List (List Char)).length
  · rw [if_pos h5]; simp
  · rw [if_neg h5]
    rw [dedupTake_eq_take ms ([] ++ [m]) (by simp)]
    rcases dedupFrom_prefix ms ([] ++ [m]) with ⟨r, hr⟩
    rw [hr]
    simp

theorem ytPatternScan_eq (body : List Char) :
    ytPatternScan body = (dedupTake [] (ytFirstPatternMatches body)).map ytWatchUrl := by
  have hcol : ∀ ms : List (List Char),
      ytCollect ms [] [] = (dedupTake [] ms, (dedupTake [] ms).map ytWatchUrl) :=
    fun ms => ytCollect_eq_dedupTake ms []
  have hded : dedupTake [] ([] : List (List Char)) = [] := rfl
  have hne : ∀ (m : List Char) (ms : List (List Char)),
      (((dedupTake [] (m :: ms)).map ytWatchUrl).isEmpty) = false := by
    intro m ms
    rw [List.isEmpty_eq_false]
    intro hmap
    exact dedupTake_ne_nil m ms (List.map_eq_nil_iff.mp hmap)
  rcases h1 : ytFindAll1 body with _ | ⟨m1, ms1⟩
  · rcases h2 : ytFindAll2 body with _ | ⟨m2, ms2⟩
    · rcases h3 : ytFindAll3 body with _ | ⟨m3, ms3⟩
      · simp [ytPatternScan, ytFirstPatternMatches, h1, h2, h3, hcol, hded]
      · simp [ytPatternScan, ytFirstPatternMatches, h1, h2, h3, hcol, hded, hne]
    · simp [ytPatternScan, ytFirstPatternMatches, h1, h2, hcol, hded, hne]
  · simp [ytPatternScan, ytFirstPatternMatches, h1, hcol, hded, hne]

theorem splitVeqGo_skip :
    ∀ (p acc : List Char) (d : Char) (rest : List Char),
      (∀ c ∈ p, c ≠ 'v') →
      splitVeqGo acc (p ++ d :: rest) = splitVeqGo (p.reverse ++ acc) (d :: rest) := by
  intro p
  induction p with
  | nil => intro acc d rest _; rfl
  | cons c p' ih =>
    intro acc d rest h
    have hc : c ≠ 'v' := h c (List.mem_cons_self _ _)
    rcases p' with _ | ⟨e, p''⟩
    · show splitVeqGo acc (c :: d :: rest) = splitVeqGo ([c].reverse ++ acc) (d :: rest)
      rw [show splitVeqGo acc (c :: d :: rest) =
        (if c = 'v' ∧ d = '=' then acc.reverse :: splitVeqGo [] rest
         else splitVeqGo (c :: acc) (d :: rest)) from rfl]
      rw [if_neg (by rintro ⟨h1, _⟩; exact hc h1)]
      rfl
    · show splitVeqGo acc (c :: e :: (p'' ++ d :: rest)) =
        splitVeqGo ((c :: e :: p'').reverse ++ acc) (d :: rest)
      rw [show splitVeqGo acc (c :: e :: (p'' ++ d :: rest)) =
        (if c = 'v' ∧ e = '=' then acc.reverse :: splitVeqGo [] (p'' ++ d :: rest)
         else splitVeqGo (c :: acc) (e :: (p'' ++ d :: rest))) from rfl]
      rw [if_neg (by rintro ⟨h1, _⟩; exact hc h1)]
      have := ih (c :: acc) d rest
        (fun x hx => h x (List.mem_cons_of_mem _ hx))
      rw [show (e :: p'') ++ d :: rest = e :: (p'' ++ d :: rest) from rfl] at this
      rw [this]
      congr 1
      simp [List.append_assoc]

theorem splitVeqGo_noEq :
    ∀ (s acc : List Char), ('=' : Char) ∉ s →
      splitVeqGo acc s = [acc.reverse ++ s] := by
  intro s
  induction s with
  | nil =>
    intro acc _
    show [acc.reverse] = [acc.reverse ++ []]
    rw [List.append_nil]
  | cons c s' ih =>
    intro acc h
    rcases s' with _ | ⟨d, rest⟩
    · show [(c :: acc).reverse] = [acc.reverse ++ [c]]
      rw [List.reverse_cons]
    · have hd : d ≠ '=' := by
        intro hdq
        subst hdq
        exact h (List.mem_cons_of_mem _ (List.mem_cons_self _ _))
      show splitVeqGo acc (c :: d :: rest) = _
      unfold splitVeqGo
      rw [if_neg (by rintro ⟨_, h2⟩; exact hd h2)]
      rw [ih (c :: acc) (fun hx => h (List.mem_cons_of_mem _ hx))]
      simp [List.reverse_cons, List.append_assoc]

theorem ytSplitVid_watch (vid : List Char) (hv : ('=' : Char) ∉ vid) :
    ytSplitVid (ytWatchUrl vid) = vid := by
  have hnoV : ∀ c ∈ "https://www.youtube.com/watch?".data, c ≠ 'v' := by decide
  have hdata : (ytWatchUrl vid).data =
      "https://www.youtube.com/watch?".data ++ 'v' :: '=' :: vid := by
    show ("https://www.youtube.com/watch?v=" ++ String.mk vid).data = _
    rw [String.data_append]
    rw [show "https://www.youtube.com/watch?v=".data =
      "https://www.youtube.com/watch?".data ++ ['v', '='] from rfl]
    simp [List.append_assoc]
  unfold ytSplitVid
  rw [hdata, splitVeqGo_skip _ _ _ _ hnoV]
  show (splitVeqGo ("https://www.youtube.com/watch?".data.reverse ++ [])
      ('v' :: '=' :: vid)).getD 1 [] = vid
  unfold splitVeqGo
  rw [if_pos ⟨rfl, rfl⟩]
  rw [splitVeqGo_noEq vid [] hv]
  rfl

theorem ytDedupFold :
    ∀ (F seen : List (List Char)) (acc : List String),
      F.Nodup → (∀ v ∈ F, ('=' : Char) ∉ v) → (∀ v ∈ F, v ∉ seen) →
      (F.map ytWatchUrl).foldl (fun acc2 u =>
        let vid := ytSplitVid u
        if vid ∈ acc2.1 then acc2 else (acc2.1 ++ [vid], acc2.2 ++ [u]))
        (seen, acc) = (seen ++ F, acc ++ F.map ytWatchUrl) := by
  intro F
  induction F with
  | nil => intro seen acc _ _ _; simp
  | cons v F' ih =>
    intro seen acc hnd heq hns
    rw [List.map_cons, List.foldl_cons]
    have hvid : ytSplitVid (ytWatchUrl v) = v :=
      ytSplitVid_watch v (heq v (List.mem_cons_self _ _))
    simp only [hvid]
    rw [if_neg (hns v (List.mem_cons_self _ _))]
    have hvF : v ∉ F' := (List.nodup_cons.mp hnd).1
    rw [ih (seen ++ [v]) (acc ++ [ytWatchUrl v])
      (List.nodup_cons.mp hnd).2
      (fun x hx => heq x (List.mem_cons_of_mem _ hx))
      (fun x hx hmem => by
        rcases List.mem_append.mp hmem with h2 | h2
        · exact hns x (List.mem_cons_of_mem _ hx) h2
        · rw [List.mem_singleton.mp h2] at hx
          exact hvF hx)]
    simp [List.append_assoc]

theorem ytDedupPass_map (F : List (List Char)) (hnd : F.Nodup)
    (heq : ∀ v ∈ F, ('=' : Char) ∉ v) :
    ytDedupPass (F.map ytWatchUrl) = F.map ytWatchUrl := by
  unfold ytDedupPass
  rw [ytDedupFold F [] [] hnd heq (fun v _ => List.not_mem_nil v)]
  simp

theorem extractVideoUrls_eq_spec (body : String) :
    extractVideoUrls body = ytSpecExtract body := by
  have hdd : dedupTake [] (ytFirstPatternMatches body.data) =
      (dedupFirstSeen (ytFirstPatternMatches body.data)).take 5 := by
    rw [dedupTake_eq_take (ytFirstPatternMatches body.data) [] (by norm_num)]
    rfl
  have hmem5 : ∀ v ∈ (dedupFirstSeen (ytFirstPatternMatches body.data)).take 5,
      v ∈ ytFirstPatternMatches body.data := by
    intro v hv
    have hv2 : v ∈ dedupFirstSeen (ytFirstPatternMatches body.data) :=
      List.mem_of_mem_take hv
    rcases dedupFrom_mem (ytFirstPatternMatches body.data) [] v hv2 with h0 | h0
    · cases h0
    · exact h0
  have hnd : ((dedupFirstSeen (ytFirstPatternMatches body.data)).take 5).Nodup :=
    List.Nodup.sublist (List.take_sublist _ _)
      (dedupFrom_nodup (ytFirstPatternMatches body.data) [] List.nodup_nil)
  have heq : ∀ v ∈ (dedupFirstSeen (ytFirstPatternMatches body.data)).take 5,
      ('=' : Char) ∉ v := by
    intro v hv hin
    have hall := ytFirstPatternMatches_prop body.data v (hmem5 v hv)
    have := List.all_eq_true.mp hall ('=' : Char) hin
    cases this
  unfold extractVideoUrls ytSpecExtract
  rw [ytPatternScan_eq, hdd, ytDedupPass_map _ hnd heq,
    List.take_of_length_le]
  rw [List.length_map]
  exact le_trans (List.length_take_le _ _) (le_refl 5)

set_option maxRecDepth 4000 in
/-- Claim C7: Video extraction tries the four identifier patterns in order
of decreasing specificity, stops at the first pattern yielding any match,
deduplicates identifiers preserving first-seen order, and retains at most
five links of the form watch-URL + identifier (proved as an equality with
the specification-side description `ytSpecExtract`); in particular the
three-identifier blob yields exactly its three URLs in first-seen order
and the client's `search` wraps the first with flat confidence 0.8. -/
theorem claim7_video_extraction :
    (∀ body : String, extractVideoUrls body = ytSpecExtract body) ∧
    extractVideoUrls ytThreeBlob =
      ["https://www.youtube.com/watch?v=AAAAAAAAAA1",
       "https://www.youtube.com/watch?v=BBBBBBBBBB2",
       "https://www.youtube.com/watch?v=CCCCCCCCCC3"] ∧
    (youtubeSearch "q" (.response 200 ytThreeBlob)).url =
      some "https://www.youtube.com/watch?v=AAAAAAAAAA1" ∧
    (youtubeSearch "q" (.response 200 ytThreeBlob)).confidence = 8/10 ∧
    (youtubeSearch "q" (.response 200 ytThreeBlob)).metadata.lookup
      "total_results" = some (.n 3) :=
  ⟨extractVideoUrls_eq_spec, rfl, rfl, rfl, rfl⟩
